import Mathlib

/-!
# Koolhaus PhysicsSystem: oriented rectangle containment

A shallow embedding of `PhysicsSystem/Main.cpp`, in two versions of the
same source.

## Exact arithmetic

* `float` is modelled by an arbitrary linearly ordered field `K` (exact
  arithmetic).  Every definition is computable, so it can be evaluated at
  `K = ℚ`; statements that involve the library functions `cos` and `sin`
  are specialised to `K = ℝ` with `Real.cos` and `Real.sin`.
* `cos` and `sin` come from `<cmath>`; the rotation constructor takes them
  as explicit arguments.
* `fmod` is the C library's truncated remainder: `fmod x y = x - y * n`
  where `n` is `x / y` rounded towards zero.
* `abs` / `std::abs` on a `float` is the absolute value.
* A C++ constructor starts from the default member initialisers
  (`Shape()` leaves `center` at `Point2D()`, the half-extents are `0.0f`,
  both axes are `Vector2D()`), then runs its initialiser list and body.

This version settles the statements made for exact arithmetic and the
statements that do not depend on rounding.

## Binary32

* `float` is IEEE binary32: a value of type `F32` is a finite number (kept
  as the rational it denotes), `+inf`, `-inf` or NaN.
* Every `+`, `-`, `*` and `/` computes the exact result and rounds it to the
  nearest binary32 number, ties to even, with overflow to an infinity; each
  operation is rounded on its own (no fused multiply-add, no extended
  precision).  `inf - inf` and `inf * 0` are NaN, and every comparison with
  NaN is false.
* A `float` literal is the decimal rounded to binary32, so `PI` is
  `13176795 / 2^22`; the `double` literal `1e-5` of `nearly_equal` is
  `5902958103587057 / 2^69`, compared with the promoted `float`.
* `fmod` is exact; `cosf` and `sinf` are arguments of the rotation
  constructor, and statements about a rotated rectangle constrain only the
  values they return at the angle used.
* The sign of a zero is not tracked.

The definitions of this version live in the namespace `Binary32` under the
names of the source.  It settles the statements about outside points, the
quarter turn, rectangles with zero axes and the center of a rectangle, whose
truth on the program depends on rounding, overflow or NaN.
-/

namespace Koolhaus

/-! ## Point2D and Vector2D -/

/-- A 2D coordinate (`struct Point2D`). -/
structure Point2D (K : Type) where
  x : K
  y : K
deriving DecidableEq, Repr

/-- A displacement or direction (`struct Vector2D : Point2D`). -/
structure Vector2D (K : Type) extends Point2D K
deriving DecidableEq, Repr

section Defs

variable {K : Type} [LinearOrderedField K]

/-- Default constructor `Point2D()`: the origin. -/
def Point2D.origin : Point2D K := ⟨0, 0⟩

/-- Equality `Point2D::operator==`: exact comparison of both components. -/
def Point2D.beq (a b : Point2D K) : Bool :=
  decide (a.x = b.x) && decide (a.y = b.y)

/-- Subtraction `Point2D::operator-`. -/
def Point2D.sub (a b : Point2D K) : Point2D K :=
  ⟨a.x - b.x, a.y - b.y⟩

/-- Default constructor `Vector2D()`, which delegates to `Point2D()`. -/
def Vector2D.zero : Vector2D K := ⟨Point2D.origin⟩

/-- Converting constructor `Vector2D(const Point2D&)`. -/
def Vector2D.ofPoint (p : Point2D K) : Vector2D K := ⟨⟨p.x, p.y⟩⟩

/-- Inherited constructor `Vector2D(float, float)`. -/
def Vector2D.ofXY (x y : K) : Vector2D K := ⟨⟨x, y⟩⟩

/-- Inherited `Point2D::operator==` applied to two vectors. -/
def Vector2D.beq (a b : Vector2D K) : Bool :=
  Point2D.beq a.toPoint2D b.toPoint2D

/-- Euclidean dot product `Vector2D::dot_product`. -/
def Vector2D.dot_product (v other : Vector2D K) : K :=
  v.x * other.x + v.y * other.y

/-! ## Math utilities -/

/-- Displacement `Math::get_vector_from_A_to_B`: `Vector2D(B - A)`. -/
def Math.get_vector_from_A_to_B (A B : Point2D K) : Vector2D K :=
  Vector2D.ofPoint (B.sub A)

/-- The constant `PI = 3.14159265359f` of `Math::deg_to_radians`. -/
def Math.PI : K := 314159265359 / 100000000000

/-- Rounding towards zero, as done inside `fmod`. -/
def Math.trunc [FloorRing K] (q : K) : ℤ :=
  if 0 ≤ q then Int.floor q else Int.ceil q

/-- The C library's `fmod`: the remainder of `x / y` with the quotient
rounded towards zero. -/
def Math.fmod [FloorRing K] (x y : K) : K :=
  x - y * ((Math.trunc (x / y) : ℤ) : K)

/-- Conversion `Math::deg_to_radians`: `fmod(degrees, 360.0f) / 180.0f * PI`. -/
def Math.deg_to_radians [FloorRing K] (degrees : K) : K :=
  Math.fmod degrees 360 / 180 * Math.PI

/-- Tolerance comparison `Math::nearly_equal`: `abs(a - b) < 1e-5`. -/
def Math.nearly_equal (a b : K) : Bool :=
  decide (|a - b| < 1 / 100000)

end Defs

/-! ## Shape and Rectangle -/

/-- The base class `Shape`: it owns the center. -/
structure Shape (K : Type) where
  center : Point2D K
deriving DecidableEq, Repr

/-- The class `Rectangle : public Shape` with its four private members. -/
structure Rectangle (K : Type) extends Shape K where
  half_extents_major : K
  half_extents_minor : K
  axis_major : Vector2D K
  axis_minor : Vector2D K
deriving DecidableEq, Repr

section RectDefs

variable {K : Type} [LinearOrderedField K]

/-- The state of a `Rectangle` before a constructor body runs when nothing
is initialised explicitly: `Shape()` default-constructs `center`, the
half-extents use their default member initialiser `0.0f`, and both axes
are `Vector2D()`. -/
def Rectangle.default_members : Rectangle K :=
  { center := Point2D.origin
    half_extents_major := 0
    half_extents_minor := 0
    axis_major := Vector2D.zero
    axis_minor := Vector2D.zero }

/-- Constructor `Rectangle(Point2D bottom_left_in, Point2D top_right_in)`. -/
def Rectangle.from_corners (bottom_left_in top_right_in : Point2D K) : Rectangle K :=
  let vec_bl_tr := Math.get_vector_from_A_to_B bottom_left_in top_right_in
  { (Rectangle.default_members : Rectangle K) with
    center := ⟨bottom_left_in.x + vec_bl_tr.x / 2, bottom_left_in.y + vec_bl_tr.y / 2⟩
    half_extents_major := |vec_bl_tr.x / 2|
    half_extents_minor := |vec_bl_tr.y / 2| }

/-- Constructor `Rectangle(Point2D center_in, float half_extents_x_major_in,
float half_extents_y_minor)`. -/
def Rectangle.from_center (center_in : Point2D K)
    (half_extents_x_major_in half_extents_y_minor : K) : Rectangle K :=
  let init : Rectangle K :=
    { (Rectangle.default_members : Rectangle K) with
      center := center_in
      half_extents_major := |half_extents_x_major_in|
      half_extents_minor := |half_extents_y_minor| }
  { init with
    axis_major := Vector2D.ofXY 1 0
    axis_minor := Vector2D.ofXY 0 1 }

/-- Rotation constructor `Rectangle(Point2D, float, float, float rotation_in)`.
It delegates to `from_center` and then overrides both axes; `cos` and `sin`
are the library functions. -/
def Rectangle.from_rotation [FloorRing K] (cos sin : K → K) (center_in : Point2D K)
    (half_extents_major_in half_extents_minor_in rotation_in : K) : Rectangle K :=
  let rot_radians := Math.deg_to_radians rotation_in
  { Rectangle.from_center center_in half_extents_major_in half_extents_minor_in with
    axis_major := Vector2D.ofXY (cos rot_radians) (sin rot_radians)
    axis_minor := Vector2D.ofXY (-sin rot_radians) (cos rot_radians) }

/-- Copy constructor `Rectangle(const Rectangle& other)`: it has no
initialiser list, and its body assigns the center and the half-extents. -/
def Rectangle.copy (other : Rectangle K) : Rectangle K :=
  { (Rectangle.default_members : Rectangle K) with
    center := other.center
    half_extents_major := other.half_extents_major
    half_extents_minor := other.half_extents_minor }

/-- Equality `Rectangle::operator==`: all five fields, compared exactly. -/
def Rectangle.beq (r other : Rectangle K) : Bool :=
  Point2D.beq r.center other.center
    && decide (r.half_extents_major = other.half_extents_major)
    && decide (r.half_extents_minor = other.half_extents_minor)
    && Vector2D.beq r.axis_major other.axis_major
    && Vector2D.beq r.axis_minor other.axis_minor

/-- Assignment `Rectangle::operator=`: the value of `*this` afterwards. -/
def Rectangle.assign (self other : Rectangle K) : Rectangle K :=
  { self with
    center := other.center
    half_extents_major := other.half_extents_major
    half_extents_minor := other.half_extents_minor }

/-- Absolute projection of `point_in - center` on the major axis
(`magnitude_major` in `contains_point`). -/
def Rectangle.magnitude_major (r : Rectangle K) (point_in : Point2D K) : K :=
  |(Math.get_vector_from_A_to_B r.center point_in).dot_product r.axis_major|

/-- Absolute projection of `point_in - center` on the minor axis
(`magnitude_minor` in `contains_point`). -/
def Rectangle.magnitude_minor (r : Rectangle K) (point_in : Point2D K) : K :=
  |(Math.get_vector_from_A_to_B r.center point_in).dot_product r.axis_minor|

/-- The containment test `Rectangle::contains_point`, branch for branch. -/
def Rectangle.contains_point (r : Rectangle K) (point_in : Point2D K) : Bool :=
  let vec_center_pt := Math.get_vector_from_A_to_B r.center point_in
  let magnitude_major := |vec_center_pt.dot_product r.axis_major|
  let magnitude_minor := |vec_center_pt.dot_product r.axis_minor|
  if decide (magnitude_major ≤ r.half_extents_major)
      && decide (magnitude_minor ≤ r.half_extents_minor) then
    true
  else if Math.nearly_equal magnitude_major r.half_extents_major
      && Math.nearly_equal magnitude_minor r.half_extents_minor then
    true
  else if Math.nearly_equal magnitude_major r.half_extents_major
      && decide (magnitude_minor ≤ r.half_extents_minor) then
    true
  else if decide (magnitude_major ≤ r.half_extents_major)
      && Math.nearly_equal magnitude_minor r.half_extents_minor then
    true
  else
    false

end RectDefs

/-! ## Reachable rectangles -/

/-- The rectangles a client can obtain: the three constructors, the copy
constructor, and the left-hand side of an assignment between two
rectangles already obtained.  The members are private and no other member
function modifies them. -/
inductive Reachable {K : Type} [LinearOrderedField K] [FloorRing K] (cos sin : K → K) :
    Rectangle K → Prop
  | corners (bl tr : Point2D K) : Reachable cos sin (Rectangle.from_corners bl tr)
  | center (c : Point2D K) (a b : K) : Reachable cos sin (Rectangle.from_center c a b)
  | rotation (c : Point2D K) (a b rot : K) :
      Reachable cos sin (Rectangle.from_rotation cos sin c a b rot)
  | copy {r : Rectangle K} : Reachable cos sin r → Reachable cos sin r.copy
  | assign {self other : Rectangle K} :
      Reachable cos sin self → Reachable cos sin other → Reachable cos sin (self.assign other)

/-! ## Binary32 arithmetic

The second embedding keeps the rounding of `float`.  A finite binary32
value is kept as the rational number it denotes; every arithmetic operation
computes the exact rational result and rounds it to the nearest binary32
value, ties to even, overflowing to an infinity.  The sign of a zero is not
tracked (the program never divides by a variable and never inspects it). -/

/-- A binary32 value: a finite number, an infinity, or NaN. -/
inductive F32 where
  | fin (q : ℚ)
  | pinf
  | ninf
  | nan
deriving DecidableEq, Repr

/-- Exponent of the unit in the last place of `q`: 23 below the binary
exponent of `q`, which is held at `-126` in the subnormal range. -/
def F32.expo (q : ℚ) : ℤ := max (Int.log 2 |q|) (-126) - 23

/-- The unit in the last place of `q`. -/
def F32.ulp (q : ℚ) : ℚ := 2 ^ F32.expo q

/-- Rounding to the nearest integer, ties to the even one. -/
def F32.rne (x : ℚ) : ℤ :=
  if x - ⌊x⌋ < 1 / 2 then ⌊x⌋
  else if 1 / 2 < x - ⌊x⌋ then ⌊x⌋ + 1
  else if ⌊x⌋ % 2 = 0 then ⌊x⌋
  else ⌊x⌋ + 1

/-- Rounding to 24 significant bits (exponent unbounded above). -/
def F32.rnd (q : ℚ) : ℚ := (F32.rne (q / F32.ulp q) : ℚ) * F32.ulp q

/-- The largest finite binary32 number, `(2^24 - 1) * 2^104`. -/
def F32.maxFinite : ℚ := (2 ^ 24 - 1) * 2 ^ 104

/-- Rounding of an exact result to binary32: the rounded number when it is
in range, an infinity of the same sign otherwise. -/
def F32.round (q : ℚ) : F32 :=
  if |F32.rnd q| ≤ F32.maxFinite then F32.fin (F32.rnd q)
  else if 0 < q then F32.pinf
  else F32.ninf

/-- Negation. -/
def F32.neg : F32 → F32
  | F32.fin q => F32.fin (-q)
  | F32.pinf => F32.ninf
  | F32.ninf => F32.pinf
  | F32.nan => F32.nan

/-- Absolute value (`abs` and `std::abs` on a `float`). -/
def F32.abs : F32 → F32
  | F32.fin q => F32.fin |q|
  | F32.pinf => F32.pinf
  | F32.ninf => F32.pinf
  | F32.nan => F32.nan

/-- Addition: the exact sum rounded; opposite infinities give NaN. -/
def F32.add : F32 → F32 → F32
  | F32.fin a, F32.fin b => F32.round (a + b)
  | F32.fin _, F32.pinf => F32.pinf
  | F32.fin _, F32.ninf => F32.ninf
  | F32.pinf, F32.fin _ => F32.pinf
  | F32.ninf, F32.fin _ => F32.ninf
  | F32.pinf, F32.pinf => F32.pinf
  | F32.ninf, F32.ninf => F32.ninf
  | _, _ => F32.nan

/-- Subtraction `a - b`, which is `a + (-b)`. -/
def F32.sub (a b : F32) : F32 := F32.add a (F32.neg b)

/-- Whether a value is negative (an infinity counts with its sign). -/
def F32.isNeg : F32 → Bool
  | F32.fin q => decide (q < 0)
  | F32.ninf => true
  | _ => false

/-- Multiplication: the exact product rounded; an infinity times zero is
NaN, an infinity times anything else is an infinity. -/
def F32.mul : F32 → F32 → F32
  | F32.nan, _ => F32.nan
  | _, F32.nan => F32.nan
  | F32.fin a, F32.fin b => F32.round (a * b)
  | x, y =>
    if x = F32.fin 0 ∨ y = F32.fin 0 then F32.nan
    else if x.isNeg = y.isNeg then F32.pinf
    else F32.ninf

/-- Division by a positive constant (the program divides by `2.0f` and by
`180.0f` only). -/
def F32.div_const (a : F32) (c : ℚ) : F32 :=
  match a with
  | F32.fin q => F32.round (q / c)
  | x => x

/-- Comparison `a <= b`; false as soon as one side is NaN. -/
def F32.le : F32 → F32 → Bool
  | F32.nan, _ => false
  | _, F32.nan => false
  | F32.ninf, _ => true
  | _, F32.pinf => true
  | F32.pinf, _ => false
  | _, F32.ninf => false
  | F32.fin a, F32.fin b => decide (a ≤ b)

/-- Comparison `a < d` of a `float` with a `double` constant `d`; the
promotion of the `float` is exact. -/
def F32.lt_double (a : F32) (d : ℚ) : Bool :=
  match a with
  | F32.fin q => decide (q < d)
  | F32.ninf => true
  | _ => false

/-- Whether a value is a finite number. -/
def F32.isFinite : F32 → Bool
  | F32.fin _ => true
  | _ => false

/-! ## The program over binary32 -/

/-- Default constructor `Point2D()` over binary32. -/
def Binary32.Point2D.origin : Point2D F32 := ⟨F32.fin 0, F32.fin 0⟩

/-- Subtraction `Point2D::operator-` over binary32. -/
def Binary32.Point2D.sub (a b : Point2D F32) : Point2D F32 :=
  ⟨F32.sub a.x b.x, F32.sub a.y b.y⟩

/-- Default constructor `Vector2D()` over binary32. -/
def Binary32.Vector2D.zero : Vector2D F32 := ⟨Binary32.Point2D.origin⟩

/-- Converting constructor `Vector2D(const Point2D&)` over binary32. -/
def Binary32.Vector2D.ofPoint (p : Point2D F32) : Vector2D F32 := ⟨⟨p.x, p.y⟩⟩

/-- Inherited constructor `Vector2D(float, float)` over binary32. -/
def Binary32.Vector2D.ofXY (x y : F32) : Vector2D F32 := ⟨⟨x, y⟩⟩

/-- Dot product `Vector2D::dot_product` over binary32: two rounded
products, then a rounded sum. -/
def Binary32.Vector2D.dot_product (v other : Vector2D F32) : F32 :=
  F32.add (F32.mul v.x other.x) (F32.mul v.y other.y)

/-- Displacement `Math::get_vector_from_A_to_B` over binary32. -/
def Binary32.Math.get_vector_from_A_to_B (A B : Point2D F32) : Vector2D F32 :=
  Binary32.Vector2D.ofPoint (Binary32.Point2D.sub B A)

/-- The constant `PI = 3.14159265359f`: the decimal literal rounded to
binary32. -/
def Binary32.Math.PI : F32 := F32.round (314159265359 / 100000000000)

/-- The library function `fmod` over binary32; its result is exact. -/
def Binary32.Math.fmod : F32 → F32 → F32
  | F32.fin a, F32.fin b => if b = 0 then F32.nan else F32.fin (Koolhaus.Math.fmod a b)
  | F32.fin a, F32.pinf => F32.fin a
  | F32.fin a, F32.ninf => F32.fin a
  | _, _ => F32.nan

/-- Conversion `Math::deg_to_radians` over binary32:
`fmod(degrees, 360.0f) / 180.0f * PI`, each operation rounded. -/
def Binary32.Math.deg_to_radians (degrees : F32) : F32 :=
  F32.mul (F32.div_const (Binary32.Math.fmod degrees (F32.fin 360)) 180) Binary32.Math.PI

/-- The `double` constant `1e-5` of `Math::nearly_equal`, which is
`5902958103587057 / 2^69`. -/
def Binary32.Math.tolerance : ℚ := 5902958103587057 / 2 ^ 69

/-- Tolerance comparison `Math::nearly_equal` over binary32:
`abs(a - b) < 1e-5` with a rounded difference. -/
def Binary32.Math.nearly_equal (a b : F32) : Bool :=
  F32.lt_double (F32.abs (F32.sub a b)) Binary32.Math.tolerance

/-- Default members of a `Rectangle` over binary32. -/
def Binary32.Rectangle.default_members : Rectangle F32 :=
  { center := Binary32.Point2D.origin
    half_extents_major := F32.fin 0
    half_extents_minor := F32.fin 0
    axis_major := Binary32.Vector2D.zero
    axis_minor := Binary32.Vector2D.zero }

/-- Constructor `Rectangle(Point2D bottom_left_in, Point2D top_right_in)`
over binary32. -/
def Binary32.Rectangle.from_corners (bottom_left_in top_right_in : Point2D F32) :
    Rectangle F32 :=
  let vec_bl_tr := Binary32.Math.get_vector_from_A_to_B bottom_left_in top_right_in
  { Binary32.Rectangle.default_members with
    center := ⟨F32.add bottom_left_in.x (F32.div_const vec_bl_tr.x 2),
               F32.add bottom_left_in.y (F32.div_const vec_bl_tr.y 2)⟩
    half_extents_major := F32.abs (F32.div_const vec_bl_tr.x 2)
    half_extents_minor := F32.abs (F32.div_const vec_bl_tr.y 2) }

/-- Constructor `Rectangle(Point2D center_in, float half_extents_x_major_in,
float half_extents_y_minor)` over binary32. -/
def Binary32.Rectangle.from_center (center_in : Point2D F32)
    (half_extents_x_major_in half_extents_y_minor : F32) : Rectangle F32 :=
  let init : Rectangle F32 :=
    { Binary32.Rectangle.default_members with
      center := center_in
      half_extents_major := F32.abs half_extents_x_major_in
      half_extents_minor := F32.abs half_extents_y_minor }
  { init with
    axis_major := Binary32.Vector2D.ofXY (F32.fin 1) (F32.fin 0)
    axis_minor := Binary32.Vector2D.ofXY (F32.fin 0) (F32.fin 1) }

/-- Rotation constructor over binary32; `cosf` and `sinf` are the library
functions on `float`. -/
def Binary32.Rectangle.from_rotation (cosf sinf : F32 → F32) (center_in : Point2D F32)
    (half_extents_major_in half_extents_minor_in rotation_in : F32) : Rectangle F32 :=
  let rot_radians := Binary32.Math.deg_to_radians rotation_in
  { Binary32.Rectangle.from_center center_in half_extents_major_in half_extents_minor_in with
    axis_major := Binary32.Vector2D.ofXY (cosf rot_radians) (sinf rot_radians)
    axis_minor := Binary32.Vector2D.ofXY (F32.neg (sinf rot_radians)) (cosf rot_radians) }

/-- Copy constructor `Rectangle(const Rectangle& other)` over binary32. -/
def Binary32.Rectangle.copy (other : Rectangle F32) : Rectangle F32 :=
  { Binary32.Rectangle.default_members with
    center := other.center
    half_extents_major := other.half_extents_major
    half_extents_minor := other.half_extents_minor }

/-- Assignment `Rectangle::operator=` over binary32. -/
def Binary32.Rectangle.assign (self other : Rectangle F32) : Rectangle F32 :=
  { self with
    center := other.center
    half_extents_major := other.half_extents_major
    half_extents_minor := other.half_extents_minor }

/-- The value `magnitude_major` of `contains_point` over binary32. -/
def Binary32.Rectangle.magnitude_major (r : Rectangle F32) (point_in : Point2D F32) : F32 :=
  F32.abs (Binary32.Vector2D.dot_product
    (Binary32.Math.get_vector_from_A_to_B r.center point_in) r.axis_major)

/-- The value `magnitude_minor` of `contains_point` over binary32. -/
def Binary32.Rectangle.magnitude_minor (r : Rectangle F32) (point_in : Point2D F32) : F32 :=
  F32.abs (Binary32.Vector2D.dot_product
    (Binary32.Math.get_vector_from_A_to_B r.center point_in) r.axis_minor)

/-- The containment test `Rectangle::contains_point` over binary32, branch
for branch. -/
def Binary32.Rectangle.contains_point (r : Rectangle F32) (point_in : Point2D F32) : Bool :=
  let vec_center_pt := Binary32.Math.get_vector_from_A_to_B r.center point_in
  let magnitude_major := F32.abs (Binary32.Vector2D.dot_product vec_center_pt r.axis_major)
  let magnitude_minor := F32.abs (Binary32.Vector2D.dot_product vec_center_pt r.axis_minor)
  if F32.le magnitude_major r.half_extents_major
      && F32.le magnitude_minor r.half_extents_minor then
    true
  else if Binary32.Math.nearly_equal magnitude_major r.half_extents_major
      && Binary32.Math.nearly_equal magnitude_minor r.half_extents_minor then
    true
  else if Binary32.Math.nearly_equal magnitude_major r.half_extents_major
      && F32.le magnitude_minor r.half_extents_minor then
    true
  else if F32.le magnitude_major r.half_extents_major
      && Binary32.Math.nearly_equal magnitude_minor r.half_extents_minor then
    true
  else
    false

/-- The rectangles a client can obtain from finite arguments over binary32:
the three constructors, the copy constructor, and the left-hand side of an
assignment between two rectangles already obtained. -/
inductive Binary32.Reachable (cosf sinf : F32 → F32) : Rectangle F32 → Prop
  | corners (x0 y0 x1 y1 : ℚ) :
      Binary32.Reachable cosf sinf
        (Binary32.Rectangle.from_corners ⟨F32.fin x0, F32.fin y0⟩ ⟨F32.fin x1, F32.fin y1⟩)
  | center (cx cy a b : ℚ) :
      Binary32.Reachable cosf sinf
        (Binary32.Rectangle.from_center ⟨F32.fin cx, F32.fin cy⟩ (F32.fin a) (F32.fin b))
  | rotation (cx cy a b rot : ℚ) :
      Binary32.Reachable cosf sinf
        (Binary32.Rectangle.from_rotation cosf sinf ⟨F32.fin cx, F32.fin cy⟩
          (F32.fin a) (F32.fin b) (F32.fin rot))
  | copy {r : Rectangle F32} :
      Binary32.Reachable cosf sinf r → Binary32.Reachable cosf sinf (Binary32.Rectangle.copy r)
  | assign {self other : Rectangle F32} :
      Binary32.Reachable cosf sinf self → Binary32.Reachable cosf sinf other →
      Binary32.Reachable cosf sinf (Binary32.Rectangle.assign self other)

/-! ## Unfolding lemmas -/

section Lemmas

variable {K : Type} [LinearOrderedField K]

theorem Point2D.point_beq_iff (a b : Point2D K) :
    a.beq b = true ↔ a.x = b.x ∧ a.y = b.y := by
  simp [Point2D.beq]

theorem Vector2D.vector_beq_iff (a b : Vector2D K) :
    a.beq b = true ↔ a.x = b.x ∧ a.y = b.y := by
  simp [Vector2D.beq, Point2D.beq]

theorem Rectangle.rectangle_beq_iff (r other : Rectangle K) :
    r.beq other = true ↔
      (r.center.x = other.center.x ∧ r.center.y = other.center.y)
      ∧ r.half_extents_major = other.half_extents_major
      ∧ r.half_extents_minor = other.half_extents_minor
      ∧ (r.axis_major.x = other.axis_major.x ∧ r.axis_major.y = other.axis_major.y)
      ∧ (r.axis_minor.x = other.axis_minor.x ∧ r.axis_minor.y = other.axis_minor.y) := by
  simp [Rectangle.beq, Vector2D.beq, Point2D.beq, and_assoc]

theorem Rectangle.magnitude_major_eq (r : Rectangle K) (P : Point2D K) :
    r.magnitude_major P
      = |(P.x - r.center.x) * r.axis_major.x + (P.y - r.center.y) * r.axis_major.y| := rfl

theorem Rectangle.magnitude_minor_eq (r : Rectangle K) (P : Point2D K) :
    r.magnitude_minor P
      = |(P.x - r.center.x) * r.axis_minor.x + (P.y - r.center.y) * r.axis_minor.y| := rfl

/-- The branches of `contains_point`, read as a disjunction. -/
theorem Rectangle.contains_point_branches (r : Rectangle K) (P : Point2D K) :
    r.contains_point P = true ↔
      (r.magnitude_major P ≤ r.half_extents_major
          ∧ r.magnitude_minor P ≤ r.half_extents_minor)
      ∨ (|r.magnitude_major P - r.half_extents_major| < 1 / 100000
          ∧ |r.magnitude_minor P - r.half_extents_minor| < 1 / 100000)
      ∨ (|r.magnitude_major P - r.half_extents_major| < 1 / 100000
          ∧ r.magnitude_minor P ≤ r.half_extents_minor)
      ∨ (r.magnitude_major P ≤ r.half_extents_major
          ∧ |r.magnitude_minor P - r.half_extents_minor| < 1 / 100000) := by
  unfold Rectangle.contains_point Rectangle.magnitude_major Rectangle.magnitude_minor
  dsimp only [Math.nearly_equal]
  generalize |(Math.get_vector_from_A_to_B r.center P).dot_product r.axis_major| = m1
  generalize |(Math.get_vector_from_A_to_B r.center P).dot_product r.axis_minor| = m2
  by_cases a1 : m1 ≤ r.half_extents_major <;>
    by_cases a2 : m2 ≤ r.half_extents_minor <;>
    by_cases n1 : |m1 - r.half_extents_major| < 1 / 100000 <;>
    by_cases n2 : |m2 - r.half_extents_minor| < 1 / 100000 <;>
    simp [a1, a2, n1, n2]

/-- One axis of the test: below the half-extent or within tolerance of it
is the same as below the half-extent plus the tolerance. -/
theorem le_or_near_iff (m h : K) :
    (m ≤ h ∨ |m - h| < 1 / 100000) ↔ m < h + 1 / 100000 := by
  rw [abs_lt]
  constructor
  · rintro (h1 | ⟨_, h2⟩) <;> linarith
  · intro h1
    by_cases h2 : m ≤ h
    · exact Or.inl h2
    · right
      push_neg at h2
      constructor <;> linarith

/-- Containment as one strict inequality per axis. -/
theorem Rectangle.contains_point_iff_lt (r : Rectangle K) (P : Point2D K) :
    r.contains_point P = true ↔
      r.magnitude_major P < r.half_extents_major + 1 / 100000
      ∧ r.magnitude_minor P < r.half_extents_minor + 1 / 100000 := by
  rw [Rectangle.contains_point_branches, ← le_or_near_iff, ← le_or_near_iff]
  tauto

/-! ### The truncated remainder -/

theorem Math.PI_pos : (0 : K) < Math.PI := by
  unfold Math.PI
  positivity

theorem Math.fmod_eq_sub (x y : K) [FloorRing K] :
    ∃ k : ℤ, x = Math.fmod x y + y * (k : K) :=
  ⟨Math.trunc (x / y), by unfold Math.fmod; ring⟩

theorem Math.fmod_of_nonneg [FloorRing K] {x y : K} (hx : 0 ≤ x) (hy : 0 < y) :
    0 ≤ Math.fmod x y ∧ Math.fmod x y < y := by
  have hq : 0 ≤ x / y := div_nonneg hx hy.le
  have h1 : ((Int.floor (x / y) : ℤ) : K) ≤ x / y := Int.floor_le _
  have h2 : x / y < ((Int.floor (x / y) : ℤ) : K) + 1 := Int.lt_floor_add_one _
  rw [le_div_iff₀ hy] at h1
  rw [div_lt_iff₀ hy] at h2
  unfold Math.fmod Math.trunc
  rw [if_pos hq]
  constructor <;> linarith

theorem Math.fmod_of_nonpos [FloorRing K] {x y : K} (hx : x ≤ 0) (hy : 0 < y) :
    -y < Math.fmod x y ∧ Math.fmod x y ≤ 0 := by
  rcases hx.eq_or_lt with h0 | hneg
  · subst h0
    unfold Math.fmod Math.trunc
    simp [hy]
  · have hq : ¬ 0 ≤ x / y := not_le.mpr (div_neg_of_neg_of_pos hneg hy)
    have h1 : x / y ≤ ((Int.ceil (x / y) : ℤ) : K) := Int.le_ceil _
    have h2 : ((Int.ceil (x / y) : ℤ) : K) < x / y + 1 := Int.ceil_lt_add_one _
    rw [div_le_iff₀ hy] at h1
    have h3 : ((Int.ceil (x / y) : ℤ) : K) * y < (x / y + 1) * y :=
      mul_lt_mul_of_pos_right h2 hy
    have h4 : (x / y + 1) * y = x + y := by
      field_simp
    rw [h4] at h3
    unfold Math.fmod Math.trunc
    rw [if_neg hq]
    constructor <;> linarith

/-- An input already inside one turn is left unchanged by `fmod`. -/
theorem Math.fmod_of_nonneg_of_lt [FloorRing K] {x y : K} (hx : 0 ≤ x) (hxy : x < y) :
    Math.fmod x y = x := by
  have hy : 0 < y := lt_of_le_of_lt hx hxy
  have hq : 0 ≤ x / y := div_nonneg hx hy.le
  have hfl : Int.floor (x / y) = 0 := by
    rw [Int.floor_eq_iff]
    constructor
    · simpa using hq
    · simpa using (div_lt_one hy).mpr hxy
  unfold Math.fmod Math.trunc
  rw [if_pos hq, hfl]
  simp

/-- A negative input above minus one turn is left unchanged by `fmod`. -/
theorem Math.fmod_of_neg_of_lt [FloorRing K] {x y : K} (hx : x < 0) (hxy : -y < x) :
    Math.fmod x y = x := by
  have hy : 0 < y := by linarith
  have hq : ¬ 0 ≤ x / y := not_le.mpr (div_neg_of_neg_of_pos hx hy)
  have hce : Int.ceil (x / y) = 0 := by
    rw [Int.ceil_eq_iff]
    constructor
    · have : -1 < x / y := by
        rw [lt_div_iff₀ hy]
        linarith
      simpa using this
    · simpa using (not_le.mp hq).le
  unfold Math.fmod Math.trunc
  rw [if_neg hq, hce]
  simp

end Lemmas

/-! ## Containment: the four branches -/

section Containment

variable {K : Type} [LinearOrderedField K]

end Containment

/-! ## Copying, assignment and the two-corner constructor -/

section Axes

variable {K : Type} [LinearOrderedField K]

/-- With both axes at `(0,0)` each projection is `0`, so the test reduces
to a comparison of the half-extents with `-1e-5`. -/
theorem Rectangle.contains_point_of_zero_axes (r : Rectangle K) (P : Point2D K)
    (hmaj : r.axis_major = Vector2D.zero) (hmin : r.axis_minor = Vector2D.zero)
    (h1 : 0 ≤ r.half_extents_major) (h2 : 0 ≤ r.half_extents_minor) :
    r.contains_point P = true := by
  rw [Rectangle.contains_point_iff_lt, Rectangle.magnitude_major_eq,
    Rectangle.magnitude_minor_eq, hmaj, hmin]
  simp only [Vector2D.zero, Point2D.origin, mul_zero, add_zero, abs_zero]
  constructor <;> linarith

/-- At the angle `deg_to_radians 90`, computed with the program's constant,
the cosine is not `1`. -/
theorem cos_deg_to_radians_90_ne_one :
    Real.cos (Math.deg_to_radians (90 : ℝ)) ≠ 1 := by
  have hf : Math.fmod (90 : ℝ) 360 = 90 :=
    Math.fmod_of_nonneg_of_lt (by norm_num) (by norm_num)
  have hval : Math.deg_to_radians (90 : ℝ) = 314159265359 / 200000000000 := by
    unfold Math.deg_to_radians Math.PI
    rw [hf]
    norm_num
  rw [hval]
  intro h
  have hpi := Real.pi_gt_three
  have h0 := (Real.cos_eq_one_iff_of_lt_of_lt (by linarith) (by linarith)).mp h
  norm_num at h0

end Axes

/-- C2: copy construction is claimed to duplicate all five fields.  At
`original = Rectangle(Point2D(3,4), 2, 1)` the copy constructor duplicates
the center and both half-extents but leaves both axes at the default
`(0,0)`, so `Rectangle(original) == original` evaluates to false. -/
theorem Rectangle.copy_from_center_not_equal :
    (Rectangle.from_center (⟨3, 4⟩ : Point2D ℚ) 2 1).copy.center = ⟨3, 4⟩
    ∧ (Rectangle.from_center (⟨3, 4⟩ : Point2D ℚ) 2 1).copy.half_extents_major = 2
    ∧ (Rectangle.from_center (⟨3, 4⟩ : Point2D ℚ) 2 1).copy.half_extents_minor = 1
    ∧ (Rectangle.from_center (⟨3, 4⟩ : Point2D ℚ) 2 1).copy.axis_major = Vector2D.ofXY 0 0
    ∧ (Rectangle.from_center (⟨3, 4⟩ : Point2D ℚ) 2 1).copy.axis_minor = Vector2D.ofXY 0 0
    ∧ (Rectangle.from_center (⟨3, 4⟩ : Point2D ℚ) 2 1).axis_major = Vector2D.ofXY 1 0
    ∧ (Rectangle.from_center (⟨3, 4⟩ : Point2D ℚ) 2 1).axis_minor = Vector2D.ofXY 0 1
    ∧ (Rectangle.from_center (⟨3, 4⟩ : Point2D ℚ) 2 1).copy.beq
        (Rectangle.from_center ⟨3, 4⟩ 2 1) = false := by
  refine ⟨rfl, ?_, ?_, rfl, rfl, rfl, rfl, ?_⟩
  · simp [Rectangle.copy, Rectangle.from_center]
  · simp [Rectangle.copy, Rectangle.from_center]
  · rw [Bool.eq_false_iff, Ne, Rectangle.rectangle_beq_iff]
    simp [Rectangle.copy, Rectangle.from_center, Rectangle.default_members,
      Vector2D.zero, Vector2D.ofXY, Point2D.origin]

/-- C3: assignment is claimed to leave `other == original`.  The assignment
operator overwrites the center and both half-extents and keeps the axes of
its left-hand side.  With `other = Rectangle(Point2D(6,5), 100, 100, 90)` and
`original = Rectangle(Point2D(3,4), 2, 1)` the major axis of `other` stays
`(cos t, sin t)` with `cos t ≠ 1`, and with `other = Rectangle(Point2D(1,3),
Point2D(5,5))` it stays `(0,0)`; in both cases `other == original` is false
after `other = original`. -/
theorem Rectangle.assign_not_equal :
    ((Rectangle.from_rotation Real.cos Real.sin (⟨6, 5⟩ : Point2D ℝ) 100 100 90).assign
        (Rectangle.from_center ⟨3, 4⟩ 2 1)).beq (Rectangle.from_center ⟨3, 4⟩ 2 1) = false
    ∧ ((Rectangle.from_rotation Real.cos Real.sin (⟨6, 5⟩ : Point2D ℝ) 100 100 90).assign
        (Rectangle.from_center ⟨3, 4⟩ 2 1)).axis_major
        = Vector2D.ofXY (Real.cos (Math.deg_to_radians 90)) (Real.sin (Math.deg_to_radians 90))
    ∧ ((Rectangle.from_corners (⟨1, 3⟩ : Point2D ℚ) ⟨5, 5⟩).assign
        (Rectangle.from_center ⟨3, 4⟩ 2 1)).beq (Rectangle.from_center ⟨3, 4⟩ 2 1) = false
    ∧ ((Rectangle.from_corners (⟨1, 3⟩ : Point2D ℚ) ⟨5, 5⟩).assign
        (Rectangle.from_center ⟨3, 4⟩ 2 1)).axis_major = Vector2D.ofXY 0 0 := by
  refine ⟨?_, rfl, ?_, rfl⟩
  · rw [Bool.eq_false_iff, Ne, Rectangle.rectangle_beq_iff]
    rintro ⟨-, -, -, ⟨hx, -⟩, -⟩
    exact cos_deg_to_radians_90_ne_one hx
  · rw [Bool.eq_false_iff, Ne, Rectangle.rectangle_beq_iff]
    simp [Rectangle.assign, Rectangle.from_corners, Rectangle.from_center,
      Rectangle.default_members, Vector2D.zero, Vector2D.ofXY, Point2D.origin]

/-- C4: the two-corner constructor is claimed to build the same rectangle as
the center + half-extents constructor.  At corners `(1,3)`-`(5,5)` it stores
center `(3,4)` and half-extents `2`, `1` as claimed, but it never sets the
axes: both stay `(0,0)`, so the result is not `==` to
`Rectangle(Point2D(3,4), 2, 1)`, and it contains the point `(100,100)`, which
that rectangle does not. -/
theorem Rectangle.from_corners_not_from_center :
    (Rectangle.from_corners (⟨1, 3⟩ : Point2D ℚ) ⟨5, 5⟩).center = ⟨3, 4⟩
    ∧ (Rectangle.from_corners (⟨1, 3⟩ : Point2D ℚ) ⟨5, 5⟩).half_extents_major = 2
    ∧ (Rectangle.from_corners (⟨1, 3⟩ : Point2D ℚ) ⟨5, 5⟩).half_extents_minor = 1
    ∧ (Rectangle.from_corners (⟨1, 3⟩ : Point2D ℚ) ⟨5, 5⟩).axis_major = Vector2D.ofXY 0 0
    ∧ (Rectangle.from_corners (⟨1, 3⟩ : Point2D ℚ) ⟨5, 5⟩).axis_minor = Vector2D.ofXY 0 0
    ∧ (Rectangle.from_corners (⟨1, 3⟩ : Point2D ℚ) ⟨5, 5⟩).beq
        (Rectangle.from_center ⟨3, 4⟩ 2 1) = false
    ∧ (Rectangle.from_corners (⟨1, 3⟩ : Point2D ℚ) ⟨5, 5⟩).contains_point ⟨100, 100⟩ = true
    ∧ (Rectangle.from_center (⟨3, 4⟩ : Point2D ℚ) 2 1).contains_point ⟨100, 100⟩ = false := by
  have hc : (Rectangle.from_corners (⟨1, 3⟩ : Point2D ℚ) ⟨5, 5⟩).center = ⟨3, 4⟩ := by
    simp only [Rectangle.from_corners, Math.get_vector_from_A_to_B, Vector2D.ofPoint,
      Point2D.sub, Point2D.mk.injEq]
    norm_num
  have h1 : (Rectangle.from_corners (⟨1, 3⟩ : Point2D ℚ) ⟨5, 5⟩).half_extents_major = 2 := by
    simp only [Rectangle.from_corners, Math.get_vector_from_A_to_B, Vector2D.ofPoint,
      Point2D.sub]
    norm_num
  have h2 : (Rectangle.from_corners (⟨1, 3⟩ : Point2D ℚ) ⟨5, 5⟩).half_extents_minor = 1 := by
    simp only [Rectangle.from_corners, Math.get_vector_from_A_to_B, Vector2D.ofPoint,
      Point2D.sub]
    norm_num
  refine ⟨hc, h1, h2, rfl, rfl, ?_, ?_, ?_⟩
  · rw [Bool.eq_false_iff, Ne, Rectangle.rectangle_beq_iff]
    simp [Rectangle.from_corners, Rectangle.from_center, Rectangle.default_members,
      Vector2D.zero, Vector2D.ofXY, Point2D.origin]
  · exact Rectangle.contains_point_of_zero_axes _ _ rfl rfl (by rw [h1]; norm_num)
      (by rw [h2]; norm_num)
  · rw [Bool.eq_false_iff, Ne, Rectangle.contains_point_iff_lt,
      Rectangle.magnitude_major_eq, Rectangle.magnitude_minor_eq]
    simp only [Rectangle.from_center, Vector2D.ofXY]
    norm_num

/-! ## Axes and half-extents of constructed rectangles -/

section Invariants

variable {K : Type} [LinearOrderedField K]

/-- C5: both axes are claimed to be orthonormal for every constructed
rectangle.  The two-corner constructor and the copy constructor leave both
axes at `(0,0)`, whose squared length is `0`, not `1`; the assignment
operator keeps whatever axes its left-hand side had, so a rectangle built
from two corners still has squared axis length `0` after being assigned
to.  Evaluated at corners `(1,3)`-`(5,5)` and at the copy of
`Rectangle(Point2D(3,4), 2, 1)`. -/
theorem Rectangle.axes_not_orthonormal :
    (Rectangle.from_corners (⟨1, 3⟩ : Point2D ℚ) ⟨5, 5⟩).axis_major.dot_product
        (Rectangle.from_corners (⟨1, 3⟩ : Point2D ℚ) ⟨5, 5⟩).axis_major = 0
    ∧ (Rectangle.from_corners (⟨1, 3⟩ : Point2D ℚ) ⟨5, 5⟩).axis_minor.dot_product
        (Rectangle.from_corners (⟨1, 3⟩ : Point2D ℚ) ⟨5, 5⟩).axis_minor = 0
    ∧ (Rectangle.from_center (⟨3, 4⟩ : Point2D ℚ) 2 1).copy.axis_major.dot_product
        (Rectangle.from_center (⟨3, 4⟩ : Point2D ℚ) 2 1).copy.axis_major = 0
    ∧ (Rectangle.from_center (⟨3, 4⟩ : Point2D ℚ) 2 1).copy.axis_minor.dot_product
        (Rectangle.from_center (⟨3, 4⟩ : Point2D ℚ) 2 1).copy.axis_minor = 0
    ∧ ((Rectangle.from_corners (⟨1, 3⟩ : Point2D ℚ) ⟨5, 5⟩).assign
        (Rectangle.from_center ⟨3, 4⟩ 2 1)).axis_major.dot_product
        ((Rectangle.from_corners (⟨1, 3⟩ : Point2D ℚ) ⟨5, 5⟩).assign
          (Rectangle.from_center ⟨3, 4⟩ 2 1)).axis_major = 0
    ∧ (∀ bl tr : Point2D K,
        (Rectangle.from_corners bl tr).axis_major = Vector2D.ofXY 0 0
        ∧ (Rectangle.from_corners bl tr).axis_minor = Vector2D.ofXY 0 0)
    ∧ (∀ r : Rectangle K,
        r.copy.axis_major = Vector2D.ofXY 0 0 ∧ r.copy.axis_minor = Vector2D.ofXY 0 0)
    ∧ (∀ self other : Rectangle K,
        (self.assign other).axis_major = self.axis_major
        ∧ (self.assign other).axis_minor = self.axis_minor) := by
  refine ⟨?_, ?_, ?_, ?_, ?_, fun _ _ => ⟨rfl, rfl⟩, fun _ => ⟨rfl, rfl⟩,
    fun _ _ => ⟨rfl, rfl⟩⟩ <;>
  simp [Vector2D.dot_product, Rectangle.from_corners, Rectangle.copy, Rectangle.assign,
    Rectangle.default_members, Vector2D.zero, Point2D.origin]

/-- C6: the rotation constructor stores `axis_major = (cos t, sin t)` and
`axis_minor = (-sin t, cos t)` with `t = deg_to_radians rot`, keeps the
center and the absolute half-extents of the center + half-extents
constructor, and the two axes are orthonormal. -/
theorem Rectangle.from_rotation_axes (c : Point2D ℝ) (a b rot : ℝ) :
    (Rectangle.from_rotation Real.cos Real.sin c a b rot).axis_major
        = Vector2D.ofXY (Real.cos (Math.deg_to_radians rot)) (Real.sin (Math.deg_to_radians rot))
    ∧ (Rectangle.from_rotation Real.cos Real.sin c a b rot).axis_minor
        = Vector2D.ofXY (-Real.sin (Math.deg_to_radians rot)) (Real.cos (Math.deg_to_radians rot))
    ∧ (Rectangle.from_rotation Real.cos Real.sin c a b rot).center = c
    ∧ (Rectangle.from_rotation Real.cos Real.sin c a b rot).half_extents_major = |a|
    ∧ (Rectangle.from_rotation Real.cos Real.sin c a b rot).half_extents_minor = |b|
    ∧ (Rectangle.from_rotation Real.cos Real.sin c a b rot).center
        = (Rectangle.from_center c a b).center
    ∧ (Rectangle.from_rotation Real.cos Real.sin c a b rot).half_extents_major
        = (Rectangle.from_center c a b).half_extents_major
    ∧ (Rectangle.from_rotation Real.cos Real.sin c a b rot).half_extents_minor
        = (Rectangle.from_center c a b).half_extents_minor
    ∧ (Rectangle.from_rotation Real.cos Real.sin c a b rot).axis_major.dot_product
        (Rectangle.from_rotation Real.cos Real.sin c a b rot).axis_minor = 0
    ∧ (Rectangle.from_rotation Real.cos Real.sin c a b rot).axis_major.dot_product
        (Rectangle.from_rotation Real.cos Real.sin c a b rot).axis_major = 1
    ∧ (Rectangle.from_rotation Real.cos Real.sin c a b rot).axis_minor.dot_product
        (Rectangle.from_rotation Real.cos Real.sin c a b rot).axis_minor = 1 := by
  have h := Real.cos_sq_add_sin_sq (Math.deg_to_radians rot)
  refine ⟨rfl, rfl, rfl, rfl, rfl, rfl, rfl, rfl, ?_, ?_, ?_⟩
  · simp only [Vector2D.dot_product, Rectangle.from_rotation, Vector2D.ofXY]
    ring
  · simp only [Vector2D.dot_product, Rectangle.from_rotation, Vector2D.ofXY]
    linear_combination h
  · simp only [Vector2D.dot_product, Rectangle.from_rotation, Vector2D.ofXY]
    linear_combination h

/-- C7: half-extents are never negative.  The center + half-extents
constructor stores exactly `|a|` and `|b|` (so negated inputs give an equal
rectangle), the rotation constructor and the two-corner constructor store
absolute values, copy and assignment carry the half-extents over, and so
both half-extents are non-negative for every reachable rectangle.  Every
constructor is a total function: no input is rejected. -/
theorem Rectangle.half_extents_nonneg [FloorRing K] (cos sin : K → K) :
    (∀ (c : Point2D K) (a b : K),
        (Rectangle.from_center c a b).half_extents_major = |a|
        ∧ (Rectangle.from_center c a b).half_extents_minor = |b|)
    ∧ (∀ (c : Point2D K) (a b : K),
        (Rectangle.from_center c (-a) (-b)).beq (Rectangle.from_center c a b) = true)
    ∧ (∀ (c : Point2D K) (a b rot : K),
        (Rectangle.from_rotation cos sin c a b rot).half_extents_major = |a|
        ∧ (Rectangle.from_rotation cos sin c a b rot).half_extents_minor = |b|)
    ∧ (∀ bl tr : Point2D K,
        (Rectangle.from_corners bl tr).half_extents_major = |(tr.x - bl.x) / 2|
        ∧ (Rectangle.from_corners bl tr).half_extents_minor = |(tr.y - bl.y) / 2|)
    ∧ (∀ r : Rectangle K,
        r.copy.half_extents_major = r.half_extents_major
        ∧ r.copy.half_extents_minor = r.half_extents_minor)
    ∧ (∀ self other : Rectangle K,
        (self.assign other).half_extents_major = other.half_extents_major
        ∧ (self.assign other).half_extents_minor = other.half_extents_minor)
    ∧ (∀ r : Rectangle K, Reachable cos sin r →
        0 ≤ r.half_extents_major ∧ 0 ≤ r.half_extents_minor) := by
  refine ⟨fun _ _ _ => ⟨rfl, rfl⟩, ?_, fun _ _ _ _ => ⟨rfl, rfl⟩, fun _ _ => ⟨rfl, rfl⟩,
    fun _ => ⟨rfl, rfl⟩, fun _ _ => ⟨rfl, rfl⟩, ?_⟩
  · intro c a b
    rw [Rectangle.rectangle_beq_iff]
    simp [Rectangle.from_center]
  · intro r hr
    induction hr with
    | corners bl tr => exact ⟨abs_nonneg _, abs_nonneg _⟩
    | center c a b => exact ⟨abs_nonneg _, abs_nonneg _⟩
    | rotation c a b rot => exact ⟨abs_nonneg _, abs_nonneg _⟩
    | copy _ ih => exact ih
    | assign _ _ _ ih => exact ih

end Invariants

/-- Witness for C7: the copy of a rotated rectangle built from negative
extents is reachable and has half-extents `2` and `1`. -/
theorem Rectangle.half_extents_nonneg_witness :
    Reachable Real.cos Real.sin
        (Rectangle.from_rotation Real.cos Real.sin (⟨3, 4⟩ : Point2D ℝ) (-2) (-1) 90).copy
    ∧ (0 : ℝ) ≤ (Rectangle.from_rotation Real.cos Real.sin
        (⟨3, 4⟩ : Point2D ℝ) (-2) (-1) 90).copy.half_extents_major
    ∧ (0 : ℝ) ≤ (Rectangle.from_rotation Real.cos Real.sin
        (⟨3, 4⟩ : Point2D ℝ) (-2) (-1) 90).copy.half_extents_minor :=
  ⟨Reachable.copy (Reachable.rotation _ _ _ _),
    (Rectangle.half_extents_nonneg Real.cos Real.sin).2.2.2.2.2.2 _
      (Reachable.copy (Reachable.rotation _ _ _ _))⟩

/-! ## Degrees to radians -/

section Degrees

variable {K : Type} [LinearOrderedField K] [FloorRing K]

/-- C8, as stated, fails for a negative input: `deg_to_radians (-90)` is
`-PI/2`, which is negative, and no `n` in `[0, 360)` gives that result. -/
theorem Math.deg_to_radians_neg_90 :
    Math.deg_to_radians (-90 : ℚ) = -(314159265359 / 200000000000)
    ∧ ¬ (0 ≤ Math.deg_to_radians (-90 : ℚ))
    ∧ ¬ ∃ n : ℚ, 0 ≤ n ∧ n < 360 ∧ (∃ k : ℤ, (-90 : ℚ) = n + 360 * (k : ℚ))
        ∧ Math.deg_to_radians (-90 : ℚ) = n / 180 * Math.PI := by
  have hf : Math.fmod (-90 : ℚ) 360 = -90 :=
    Math.fmod_of_neg_of_lt (by norm_num) (by norm_num)
  have hval : Math.deg_to_radians (-90 : ℚ) = -(314159265359 / 200000000000) := by
    unfold Math.deg_to_radians Math.PI
    rw [hf]
    norm_num
  refine ⟨hval, ?_, ?_⟩
  · rw [hval]
    norm_num
  · rintro ⟨n, hn0, -, -, hn⟩
    rw [hval] at hn
    unfold Math.PI at hn
    have : n = -90 := by linarith
    linarith

/-- C8, amended: `deg_to_radians` reduces the input by `fmod` to an angle
`n` congruent to `degrees` modulo 360 with `|n| < 360` and the sign of
`degrees` (`n` in `[0, 360)` for a non-negative input, `n` in `(-360, 0]`
for a non-positive one) and returns `n / 180 * PI`; the result lies strictly
between `-2*PI` and `2*PI`, and in `[0, 2*PI)` for a non-negative input. -/
theorem Math.deg_to_radians_range (degrees : K) :
    Math.deg_to_radians degrees = Math.fmod degrees 360 / 180 * Math.PI
    ∧ (Math.PI : K) = 314159265359 / 100000000000
    ∧ (∃ k : ℤ, degrees = Math.fmod degrees 360 + 360 * (k : K))
    ∧ |Math.fmod degrees 360| < 360
    ∧ (0 ≤ degrees → 0 ≤ Math.fmod degrees 360 ∧ Math.fmod degrees 360 < 360)
    ∧ (degrees ≤ 0 → -360 < Math.fmod degrees 360 ∧ Math.fmod degrees 360 ≤ 0)
    ∧ -(2 * Math.PI) < Math.deg_to_radians degrees
    ∧ Math.deg_to_radians degrees < 2 * Math.PI
    ∧ (0 ≤ degrees → 0 ≤ Math.deg_to_radians degrees) := by
  have h360 : (0 : K) < 360 := by norm_num
  have hpi : (0 : K) < Math.PI := Math.PI_pos
  have hpos : 0 ≤ degrees → 0 ≤ Math.fmod degrees 360 ∧ Math.fmod degrees 360 < 360 :=
    fun h => Math.fmod_of_nonneg h h360
  have hneg : degrees ≤ 0 → -360 < Math.fmod degrees 360 ∧ Math.fmod degrees 360 ≤ 0 :=
    fun h => Math.fmod_of_nonpos h h360
  have habs : |Math.fmod degrees 360| < 360 := by
    rw [abs_lt]
    rcases le_total 0 degrees with h | h
    · have := hpos h
      constructor <;> linarith
    · have := hneg h
      constructor <;> linarith
  have hval : Math.deg_to_radians degrees = Math.fmod degrees 360 / 180 * Math.PI := rfl
  rw [abs_lt] at habs
  refine ⟨hval, rfl, Math.fmod_eq_sub degrees 360, abs_lt.mpr habs, hpos, hneg, ?_, ?_, ?_⟩
  · rw [hval]
    have : -(2 * (Math.PI : K)) = (-360) / 180 * Math.PI := by ring
    rw [this]
    exact mul_lt_mul_of_pos_right (div_lt_div_of_pos_right habs.1 (by norm_num)) hpi
  · rw [hval]
    have : 2 * (Math.PI : K) = 360 / 180 * Math.PI := by ring
    rw [this]
    exact mul_lt_mul_of_pos_right (div_lt_div_of_pos_right habs.2 (by norm_num)) hpi
  · intro h
    rw [hval]
    exact mul_nonneg (div_nonneg (hpos h).1 (by norm_num)) hpi.le

end Degrees

/-- Witness for C8 (amended), at the input `450`: the reduced angle is `90`
and the result is `PI / 2`, which is non-negative. -/
theorem Math.deg_to_radians_range_witness :
    (0 : ℚ) ≤ 450 ∧ 0 ≤ Math.deg_to_radians (450 : ℚ) :=
  ⟨by norm_num, (Math.deg_to_radians_range (450 : ℚ)).2.2.2.2.2.2.2.2 (by norm_num)⟩

/-! ## Relational properties of containment -/

section Relational

variable {K : Type} [LinearOrderedField K]

/-- C9: containment is monotone along the segment from the center: if `P`
is contained and `0 < t < 1`, then `Q = center + t * (P - center)` is
contained.  Proved for every rectangle value, in particular for those built
by the center + half-extents constructor and by the rotation constructor. -/
theorem Rectangle.contains_point_monotone (r : Rectangle K) (P : Point2D K) (t : K)
    (hP : r.contains_point P = true) (h0 : 0 < t) (h1 : t < 1) :
    r.contains_point
      ⟨r.center.x + t * (P.x - r.center.x), r.center.y + t * (P.y - r.center.y)⟩ = true := by
  rw [Rectangle.contains_point_iff_lt] at hP ⊢
  have scale : ∀ u : K, 0 ≤ |u| → |t * u| ≤ |u| := by
    intro u hu
    rw [abs_mul, abs_of_pos h0]
    nlinarith
  have e1 : r.magnitude_major
      ⟨r.center.x + t * (P.x - r.center.x), r.center.y + t * (P.y - r.center.y)⟩
      ≤ r.magnitude_major P := by
    rw [Rectangle.magnitude_major_eq, Rectangle.magnitude_major_eq]
    have := scale ((P.x - r.center.x) * r.axis_major.x + (P.y - r.center.y) * r.axis_major.y)
      (abs_nonneg _)
    calc |(r.center.x + t * (P.x - r.center.x) - r.center.x) * r.axis_major.x
            + (r.center.y + t * (P.y - r.center.y) - r.center.y) * r.axis_major.y|
        = |t * ((P.x - r.center.x) * r.axis_major.x + (P.y - r.center.y) * r.axis_major.y)| := by
          congr 1
          ring
      _ ≤ _ := this
  have e2 : r.magnitude_minor
      ⟨r.center.x + t * (P.x - r.center.x), r.center.y + t * (P.y - r.center.y)⟩
      ≤ r.magnitude_minor P := by
    rw [Rectangle.magnitude_minor_eq, Rectangle.magnitude_minor_eq]
    have := scale ((P.x - r.center.x) * r.axis_minor.x + (P.y - r.center.y) * r.axis_minor.y)
      (abs_nonneg _)
    calc |(r.center.x + t * (P.x - r.center.x) - r.center.x) * r.axis_minor.x
            + (r.center.y + t * (P.y - r.center.y) - r.center.y) * r.axis_minor.y|
        = |t * ((P.x - r.center.x) * r.axis_minor.x + (P.y - r.center.y) * r.axis_minor.y)| := by
          congr 1
          ring
      _ ≤ _ := this
  exact ⟨lt_of_le_of_lt e1 hP.1, lt_of_le_of_lt e2 hP.2⟩

end Relational

/-- Evaluation used by the witness of C9: the point `(2, 3.5)` is inside
`Rectangle(Point2D(3,4), 2, 1)`. -/
theorem Rectangle.contains_inside_point :
    (Rectangle.from_center (⟨3, 4⟩ : Point2D ℚ) 2 1).contains_point ⟨2, 7 / 2⟩ = true := by
  rw [Rectangle.contains_point_iff_lt, Rectangle.magnitude_major_eq,
    Rectangle.magnitude_minor_eq]
  simp only [Rectangle.from_center, Vector2D.ofXY]
  norm_num [abs_lt]

/-- Witness for C9: `P = (2, 3.5)` is inside `Rectangle(Point2D(3,4), 2, 1)`
and so is the midpoint between the center and `P`. -/
theorem Rectangle.contains_point_monotone_witness :
    (Rectangle.from_center (⟨3, 4⟩ : Point2D ℚ) 2 1).contains_point ⟨2, 7 / 2⟩ = true
    ∧ (0 : ℚ) < 1 / 2 ∧ (1 / 2 : ℚ) < 1
    ∧ (Rectangle.from_center (⟨3, 4⟩ : Point2D ℚ) 2 1).contains_point
        ⟨3 + 1 / 2 * (2 - 3), 4 + 1 / 2 * (7 / 2 - 4)⟩ = true :=
  ⟨Rectangle.contains_inside_point, by norm_num, by norm_num,
    Rectangle.contains_point_monotone (Rectangle.from_center (⟨3, 4⟩ : Point2D ℚ) 2 1)
      ⟨2, 7 / 2⟩ (1 / 2) Rectangle.contains_inside_point (by norm_num) (by norm_num)⟩

/-- C10: rotation invariance.  With `t = deg_to_radians rot` and `P'` the
point `P` rotated counter-clockwise by `t` about `c`, the unrotated
rectangle contains `P` exactly when the rectangle rotated by `rot` contains
`P'`. -/
theorem Rectangle.rotation_invariance (c P : Point2D ℝ) (a b rot : ℝ) :
    (Rectangle.from_center c a b).contains_point P
      = (Rectangle.from_rotation Real.cos Real.sin c a b rot).contains_point
          ⟨c.x + ((P.x - c.x) * Real.cos (Math.deg_to_radians rot)
                  - (P.y - c.y) * Real.sin (Math.deg_to_radians rot)),
           c.y + ((P.x - c.x) * Real.sin (Math.deg_to_radians rot)
                  + (P.y - c.y) * Real.cos (Math.deg_to_radians rot))⟩ := by
  have h := Real.cos_sq_add_sin_sq (Math.deg_to_radians rot)
  rw [Bool.eq_iff_iff, Rectangle.contains_point_iff_lt, Rectangle.contains_point_iff_lt]
  have e1 : (Rectangle.from_rotation Real.cos Real.sin c a b rot).magnitude_major
      ⟨c.x + ((P.x - c.x) * Real.cos (Math.deg_to_radians rot)
              - (P.y - c.y) * Real.sin (Math.deg_to_radians rot)),
       c.y + ((P.x - c.x) * Real.sin (Math.deg_to_radians rot)
              + (P.y - c.y) * Real.cos (Math.deg_to_radians rot))⟩
      = (Rectangle.from_center c a b).magnitude_major P := by
    rw [Rectangle.magnitude_major_eq, Rectangle.magnitude_major_eq]
    simp only [Rectangle.from_rotation, Rectangle.from_center, Vector2D.ofXY]
    congr 1
    linear_combination (P.x - c.x) * h
  have e2 : (Rectangle.from_rotation Real.cos Real.sin c a b rot).magnitude_minor
      ⟨c.x + ((P.x - c.x) * Real.cos (Math.deg_to_radians rot)
              - (P.y - c.y) * Real.sin (Math.deg_to_radians rot)),
       c.y + ((P.x - c.x) * Real.sin (Math.deg_to_radians rot)
              + (P.y - c.y) * Real.cos (Math.deg_to_radians rot))⟩
      = (Rectangle.from_center c a b).magnitude_minor P := by
    rw [Rectangle.magnitude_minor_eq, Rectangle.magnitude_minor_eq]
    simp only [Rectangle.from_rotation, Rectangle.from_center, Vector2D.ofXY]
    congr 1
    linear_combination (P.y - c.y) * h
  rw [e1, e2]
  rfl

/-! ## The displacement helper -/

section Displacement

variable {K : Type} [LinearOrderedField K]

/-- C11: `get_vector_from_A_to_B A B` is `B - A` component-wise, and it is
the component-wise negation of `get_vector_from_A_to_B B A`. -/
theorem Math.get_vector_antisymmetric (A B : Point2D K) :
    Math.get_vector_from_A_to_B A B = Vector2D.ofPoint (B.sub A)
    ∧ (Math.get_vector_from_A_to_B A B).x = B.x - A.x
    ∧ (Math.get_vector_from_A_to_B A B).y = B.y - A.y
    ∧ (Math.get_vector_from_A_to_B A B).x = -(Math.get_vector_from_A_to_B B A).x
    ∧ (Math.get_vector_from_A_to_B A B).y = -(Math.get_vector_from_A_to_B B A).y := by
  refine ⟨rfl, rfl, rfl, ?_, ?_⟩ <;>
  simp [Math.get_vector_from_A_to_B, Vector2D.ofPoint, Point2D.sub]

end Displacement

/-! ## Axis-aligned rectangles -/

section AxisAligned

variable {K : Type} [LinearOrderedField K]

theorem Rectangle.from_center_magnitude_major (c p : Point2D K) (a b : K) :
    (Rectangle.from_center c a b).magnitude_major p = |p.x - c.x| := by
  rw [Rectangle.magnitude_major_eq]
  simp [Rectangle.from_center, Vector2D.ofXY]

theorem Rectangle.from_center_magnitude_minor (c p : Point2D K) (a b : K) :
    (Rectangle.from_center c a b).magnitude_minor p = |p.y - c.y| := by
  rw [Rectangle.magnitude_minor_eq]
  simp [Rectangle.from_center, Vector2D.ofXY]

/-- Containment in an unrotated rectangle, in world coordinates. -/
theorem Rectangle.from_center_contains_iff (c p : Point2D K) (a b : K) :
    (Rectangle.from_center c a b).contains_point p = true ↔
      |p.x - c.x| < |a| + 1 / 100000 ∧ |p.y - c.y| < |b| + 1 / 100000 := by
  rw [Rectangle.contains_point_iff_lt, Rectangle.from_center_magnitude_major,
    Rectangle.from_center_magnitude_minor]
  rfl

/-- C12: interior and border points of an axis-aligned rectangle are
contained: if `|p.x - c.x| ≤ |a|` and `|p.y - c.y| ≤ |b|` (equality
allowed), then `Rectangle(c, a, b).contains_point(p)` is true. -/
theorem Rectangle.from_center_contains_inside (c p : Point2D K) (a b : K)
    (hx : |p.x - c.x| ≤ |a|) (hy : |p.y - c.y| ≤ |b|) :
    (Rectangle.from_center c a b).contains_point p = true := by
  rw [Rectangle.from_center_contains_iff]
  constructor <;> linarith

end AxisAligned

/-- Witness for C12: center `(3,4)`, half-extents `(2,1)`, with the interior
point `(2, 3.5)` and with the corner `(1, 5)`. -/
theorem Rectangle.from_center_contains_inside_witness :
    (|(2 : ℚ) - 3| ≤ |2| ∧ |(7 / 2 : ℚ) - 4| ≤ |1|
      ∧ (Rectangle.from_center (⟨3, 4⟩ : Point2D ℚ) 2 1).contains_point ⟨2, 7 / 2⟩ = true)
    ∧ (|(1 : ℚ) - 3| ≤ |2| ∧ |(5 : ℚ) - 4| ≤ |1|
      ∧ (Rectangle.from_center (⟨3, 4⟩ : Point2D ℚ) 2 1).contains_point ⟨1, 5⟩ = true) :=
  ⟨⟨by norm_num [abs_le], by norm_num [abs_le],
      Rectangle.from_center_contains_inside (⟨3, 4⟩ : Point2D ℚ) ⟨2, 7 / 2⟩ 2 1
        (by norm_num [abs_le]) (by norm_num [abs_le])⟩,
    ⟨by norm_num [abs_le], by norm_num [abs_le],
      Rectangle.from_center_contains_inside (⟨3, 4⟩ : Point2D ℚ) ⟨1, 5⟩ 2 1
        (by norm_num [abs_le]) (by norm_num [abs_le])⟩⟩

/-! ## Behaviour of the containment test -/

section Behaviour

variable {K : Type} [LinearOrderedField K]

/-- C15: the four-branch border policy is equivalent to one
tolerance-inflated strict inequality per axis: `contains_point` is true
exactly when `m_major < half_extents_major + 1e-5` and
`m_minor < half_extents_minor + 1e-5`, with `m_major` and `m_minor` the
absolute projections of `P - center` on the two axes. -/
theorem Rectangle.contains_point_iff_inflated (r : Rectangle K) (P : Point2D K) :
    r.contains_point P = true ↔
      |(Math.get_vector_from_A_to_B r.center P).dot_product r.axis_major|
          < r.half_extents_major + 1 / 100000
      ∧ |(Math.get_vector_from_A_to_B r.center P).dot_product r.axis_minor|
          < r.half_extents_minor + 1 / 100000 :=
  Rectangle.contains_point_iff_lt r P

/-- C18: containment is symmetric under point reflection through the
center: `contains_point P` equals `contains_point (2 * center - P)`. -/
theorem Rectangle.contains_point_reflect (r : Rectangle K) (P : Point2D K) :
    r.contains_point P
      = r.contains_point ⟨2 * r.center.x - P.x, 2 * r.center.y - P.y⟩ := by
  rw [Bool.eq_iff_iff, Rectangle.contains_point_iff_lt, Rectangle.contains_point_iff_lt]
  have e1 : r.magnitude_major ⟨2 * r.center.x - P.x, 2 * r.center.y - P.y⟩
      = r.magnitude_major P := by
    rw [Rectangle.magnitude_major_eq, Rectangle.magnitude_major_eq, ← abs_neg]
    congr 1
    ring
  have e2 : r.magnitude_minor ⟨2 * r.center.x - P.x, 2 * r.center.y - P.y⟩
      = r.magnitude_minor P := by
    rw [Rectangle.magnitude_minor_eq, Rectangle.magnitude_minor_eq, ← abs_neg]
    congr 1
    ring
  rw [e1, e2]

/-- C19: the two-corner constructor does not depend on the order of its
corners: `Rectangle(a, b) == Rectangle(b, a)`, with the same center, the
same half-extents and the same axes; the other pair of opposite corners of
the same box gives an equal rectangle too. -/
theorem Rectangle.from_corners_symmetric (a b : Point2D K) :
    (Rectangle.from_corners a b).beq (Rectangle.from_corners b a) = true
    ∧ (Rectangle.from_corners a b).center = (Rectangle.from_corners b a).center
    ∧ (Rectangle.from_corners a b).half_extents_major
        = (Rectangle.from_corners b a).half_extents_major
    ∧ (Rectangle.from_corners a b).half_extents_minor
        = (Rectangle.from_corners b a).half_extents_minor
    ∧ (Rectangle.from_corners a b).axis_major = (Rectangle.from_corners b a).axis_major
    ∧ (Rectangle.from_corners a b).axis_minor = (Rectangle.from_corners b a).axis_minor
    ∧ (Rectangle.from_corners ⟨a.x, b.y⟩ ⟨b.x, a.y⟩).beq (Rectangle.from_corners a b) = true := by
  have hcx : a.x + (b.x - a.x) / 2 = b.x + (a.x - b.x) / 2 := by ring
  have hcy : a.y + (b.y - a.y) / 2 = b.y + (a.y - b.y) / 2 := by ring
  have hmx : |(b.x - a.x) / 2| = |(a.x - b.x) / 2| := by
    rw [← abs_neg]
    congr 1
    ring
  have hmy : |(b.y - a.y) / 2| = |(a.y - b.y) / 2| := by
    rw [← abs_neg]
    congr 1
    ring
  refine ⟨?_, ?_, hmx, hmy, rfl, rfl, ?_⟩
  · rw [Rectangle.rectangle_beq_iff]
    exact ⟨⟨hcx, hcy⟩, hmx, hmy, ⟨rfl, rfl⟩, ⟨rfl, rfl⟩⟩
  · simp only [Rectangle.from_corners, Math.get_vector_from_A_to_B, Vector2D.ofPoint,
      Point2D.sub, Point2D.mk.injEq]
    exact ⟨hcx, hcy⟩
  · rw [Rectangle.rectangle_beq_iff]
    exact ⟨⟨rfl, hcy.symm⟩, rfl, hmy.symm, ⟨rfl, rfl⟩, ⟨rfl, rfl⟩⟩

end Behaviour

/-! ## Whole turns and the quarter turn -/

section Turns

variable {K : Type} [LinearOrderedField K] [FloorRing K]

/-- Adding the modulus to a non-negative input does not change `fmod`. -/
theorem Math.fmod_add_modulus {x y : K} (hx : 0 ≤ x) (hy : 0 < y) :
    Math.fmod (x + y) y = Math.fmod x y := by
  have hq : 0 ≤ x / y := div_nonneg hx hy.le
  have hq1 : 0 ≤ (x + y) / y := div_nonneg (by linarith) hy.le
  have hdiv : (x + y) / y = x / y + 1 := by
    field_simp
  unfold Math.fmod Math.trunc
  rw [if_pos hq, if_pos hq1, hdiv, Int.floor_add_one]
  push_cast
  ring

theorem Math.deg_to_radians_add_turn {rot : K} (h : 0 ≤ rot) :
    Math.deg_to_radians (rot + 360) = Math.deg_to_radians rot := by
  unfold Math.deg_to_radians
  rw [Math.fmod_add_modulus h (by norm_num)]

theorem Math.deg_to_radians_zero : Math.deg_to_radians (0 : K) = 0 := by
  unfold Math.deg_to_radians
  rw [Math.fmod_of_nonneg_of_lt le_rfl (by norm_num)]
  simp

theorem Math.deg_to_radians_360 : Math.deg_to_radians (360 : K) = 0 := by
  have h := Math.deg_to_radians_add_turn (le_refl (0 : K))
  rw [zero_add] at h
  rw [h, Math.deg_to_radians_zero]

end Turns

/-- C20: rotation is periodic in whole turns for non-negative angles:
for `rot ≥ 0`, `deg_to_radians (rot + 360) = deg_to_radians rot`, hence
`Rectangle(c, a, b, rot + 360) == Rectangle(c, a, b, rot)`; and
`Rectangle(c, a, b, 0)` and `Rectangle(c, a, b, 360)` are both equal to the
unrotated `Rectangle(c, a, b)`, whose axes are `(1,0)` and `(0,1)`. -/
theorem Rectangle.rotation_periodic (rot : ℝ) (h : 0 ≤ rot) :
    Math.deg_to_radians (rot + 360) = Math.deg_to_radians rot
    ∧ (∀ (c : Point2D ℝ) (a b : ℝ),
        (Rectangle.from_rotation Real.cos Real.sin c a b (rot + 360)).beq
          (Rectangle.from_rotation Real.cos Real.sin c a b rot) = true)
    ∧ (∀ (c : Point2D ℝ) (a b : ℝ),
        (Rectangle.from_rotation Real.cos Real.sin c a b 0).beq
          (Rectangle.from_center c a b) = true
        ∧ (Rectangle.from_rotation Real.cos Real.sin c a b 360).beq
          (Rectangle.from_center c a b) = true
        ∧ (Rectangle.from_center c a b).axis_major = Vector2D.ofXY 1 0
        ∧ (Rectangle.from_center c a b).axis_minor = Vector2D.ofXY 0 1) := by
  have hp := Math.deg_to_radians_add_turn h
  refine ⟨hp, ?_, ?_⟩
  · intro c a b
    rw [Rectangle.rectangle_beq_iff]
    simp [Rectangle.from_rotation, Vector2D.ofXY, hp]
  · intro c a b
    refine ⟨?_, ?_, rfl, rfl⟩
    · rw [Rectangle.rectangle_beq_iff]
      simp [Rectangle.from_rotation, Rectangle.from_center, Vector2D.ofXY,
        Math.deg_to_radians_zero]
    · rw [Rectangle.rectangle_beq_iff]
      simp [Rectangle.from_rotation, Rectangle.from_center, Vector2D.ofXY,
        Math.deg_to_radians_360]

/-- Witness for C20, at `rot = 90`. -/
theorem Rectangle.rotation_periodic_witness :
    (0 : ℝ) ≤ 90
    ∧ Math.deg_to_radians ((90 : ℝ) + 360) = Math.deg_to_radians 90
    ∧ (Rectangle.from_rotation Real.cos Real.sin (⟨3, 4⟩ : Point2D ℝ) 2 1 (90 + 360)).beq
        (Rectangle.from_rotation Real.cos Real.sin ⟨3, 4⟩ 2 1 90) = true :=
  ⟨by norm_num, (Rectangle.rotation_periodic 90 (by norm_num)).1,
    (Rectangle.rotation_periodic 90 (by norm_num)).2.1 ⟨3, 4⟩ 2 1⟩

/-! ## Rounding theory -/

namespace F32

/-! ### Rounding to the nearest integer, ties to even -/

theorem rne_intCast (n : ℤ) : rne (n : ℚ) = n := by
  simp [rne]

theorem floor_le_rne (x : ℚ) : ⌊x⌋ ≤ rne x := by
  unfold rne
  split_ifs <;> omega

theorem rne_le_floor_add_one (x : ℚ) : rne x ≤ ⌊x⌋ + 1 := by
  unfold rne
  split_ifs <;> omega

theorem le_rne_of_le {x : ℚ} {n : ℤ} (h : (n : ℚ) ≤ x) : n ≤ rne x :=
  le_trans (Int.le_floor.mpr h) (floor_le_rne x)

theorem rne_le_of_le {x : ℚ} {n : ℤ} (h : x ≤ (n : ℚ)) : rne x ≤ n := by
  rcases h.eq_or_lt with h | h
  · rw [h, rne_intCast]
  · have : ⌊x⌋ < n := Int.floor_lt.mpr h
    have := rne_le_floor_add_one x
    omega

theorem abs_rne_sub_le (x : ℚ) : |(rne x : ℚ) - x| ≤ 1 / 2 := by
  have h1 : (⌊x⌋ : ℚ) ≤ x := Int.floor_le x
  have h2 : x < ⌊x⌋ + 1 := Int.lt_floor_add_one x
  unfold rne
  rw [abs_le]
  split_ifs with a b c <;> push_cast <;> constructor <;> linarith

theorem rne_of_abs_sub_lt {x : ℚ} (n : ℤ) (h : |x - n| < 1 / 2) : rne x = n := by
  rw [abs_lt] at h
  have hf : ⌊x⌋ = n ∨ ⌊x⌋ = n - 1 := by
    have h1 : n - 1 ≤ ⌊x⌋ := Int.le_floor.mpr (by push_cast; linarith)
    have h2 : ⌊x⌋ < n + 1 := Int.floor_lt.mpr (by push_cast; linarith)
    omega
  unfold rne
  rcases hf with hf | hf
  · rw [hf]
    rw [if_pos (by linarith)]
  · rw [hf]
    have : ¬ (x - ((n - 1 : ℤ) : ℚ) < 1 / 2) := by push_cast; linarith
    rw [if_neg this, if_pos (by push_cast; linarith)]
    ring

theorem rne_half_of_even (n : ℤ) (hn : n % 2 = 0) : rne ((n : ℚ) + 1 / 2) = n := by
  have hf : ⌊(n : ℚ) + 1 / 2⌋ = n := by
    rw [Int.floor_eq_iff]
    constructor <;> linarith
  unfold rne
  rw [hf]
  rw [if_neg (by norm_num), if_neg (by norm_num), if_pos hn]

theorem rne_half_of_odd (n : ℤ) (hn : n % 2 = 1) : rne ((n : ℚ) + 1 / 2) = n + 1 := by
  have hf : ⌊(n : ℚ) + 1 / 2⌋ = n := by
    rw [Int.floor_eq_iff]
    constructor <;> linarith
  unfold rne
  rw [hf]
  rw [if_neg (by norm_num), if_neg (by norm_num), if_neg (by omega)]

theorem rne_neg (x : ℚ) : rne (-x) = -rne x := by
  by_cases hx : (⌊x⌋ : ℚ) = x
  · rw [← hx, ← Int.cast_neg, rne_intCast, rne_intCast]
  · have h1 : (⌊x⌋ : ℚ) < x := lt_of_le_of_ne (Int.floor_le x) hx
    have h2 : x < ⌊x⌋ + 1 := Int.lt_floor_add_one x
    have hf : ⌊-x⌋ = -⌊x⌋ - 1 := by
      rw [Int.floor_eq_iff]
      push_cast
      constructor <;> linarith
    unfold rne
    rw [hf]
    push_cast
    by_cases a : x - ⌊x⌋ < 1 / 2
    · rw [if_pos a, if_neg (by linarith), if_pos (by linarith)]
      ring
    · by_cases b : 1 / 2 < x - ⌊x⌋
      · rw [if_neg a, if_pos b, if_pos (by linarith)]
        ring
      · have e : x - ⌊x⌋ = 1 / 2 := le_antisymm (not_lt.mp b) (not_lt.mp a)
        rw [if_neg a, if_neg b, if_neg (by linarith), if_neg (by linarith)]
        by_cases c : ⌊x⌋ % 2 = 0
        · rw [if_pos c, if_neg (by omega)]
          ring
        · rw [if_neg c, if_pos (by omega)]
          ring

/-! ### The unit in the last place -/

theorem ulp_pos (q : ℚ) : 0 < ulp q := by
  unfold ulp
  positivity

theorem expo_neg (q : ℚ) : expo (-q) = expo q := by
  simp [expo]

theorem expo_abs (q : ℚ) : expo |q| = expo q := by
  simp [expo]

theorem ulp_neg (q : ℚ) : ulp (-q) = ulp q := by
  simp [ulp, expo_neg]

theorem ulp_abs (q : ℚ) : ulp |q| = ulp q := by
  simp [ulp, expo_abs]

theorem expo_ge (q : ℚ) : -149 ≤ expo q := by
  unfold expo
  have := le_max_right (Int.log 2 |q|) (-126)
  omega

theorem log_eq_of_binade {q : ℚ} {e : ℤ} (h1 : (2 : ℚ) ^ e ≤ |q|) (h2 : |q| < 2 ^ (e + 1)) :
    Int.log 2 |q| = e := by
  have hq : 0 < |q| := lt_of_lt_of_le (by positivity) h1
  have a : e ≤ Int.log 2 |q| :=
    (Int.zpow_le_iff_le_log (by norm_num) hq).mp (by simpa using h1)
  have b : Int.log 2 |q| < e + 1 :=
    (Int.lt_zpow_iff_log_lt (by norm_num) hq).mp (by simpa using h2)
  omega

theorem expo_eq_of_binade {q : ℚ} {e : ℤ} (h1 : (2 : ℚ) ^ e ≤ |q|) (h2 : |q| < 2 ^ (e + 1))
    (he : -126 ≤ e) : expo q = e - 23 := by
  unfold expo
  rw [log_eq_of_binade h1 h2, max_eq_left he]

theorem expo_le_of_lt {q : ℚ} {e : ℤ} (hq : q ≠ 0) (h : |q| < 2 ^ (e + 1)) (he : -126 ≤ e) :
    expo q ≤ e - 23 := by
  have hq0 : 0 < |q| := abs_pos.mpr hq
  have b : Int.log 2 |q| < e + 1 :=
    (Int.lt_zpow_iff_log_lt (by norm_num) hq0).mp (by simpa using h)
  unfold expo
  have := max_le (Int.lt_add_one_iff.mp b) he
  omega

theorem abs_lt_zpow_expo (q : ℚ) : |q| < 2 ^ (expo q + 24) := by
  have h := Int.lt_zpow_succ_log_self Nat.one_lt_two |q|
  have h' : |q| < (2 : ℚ) ^ (Int.log 2 |q| + 1) := by simpa using h
  refine lt_of_lt_of_le h' ?_
  apply zpow_le_zpow_right₀ (by norm_num)
  unfold expo
  have := le_max_left (Int.log 2 |q|) (-126)
  omega

theorem expo_mono {x y : ℚ} (hx : x ≠ 0) (h : |x| ≤ |y|) : expo x ≤ expo y := by
  have := @Int.log_mono_right ℚ _ _ 2 _ _ (abs_pos.mpr hx) h
  unfold expo
  have := max_le_max this (le_refl (-126 : ℤ))
  omega

theorem zpow_expo_le_of_lt {x y : ℚ} (hy : y ≠ 0) (h : expo x < expo y) :
    (2 : ℚ) ^ (expo y + 23) ≤ |y| := by
  have hx := expo_ge x
  have hy0 : 0 < |y| := abs_pos.mpr hy
  have hlog : expo y + 23 = Int.log 2 |y| := by
    unfold expo at h hx ⊢
    rcases le_total (Int.log 2 |y|) (-126) with c | c
    · rw [max_eq_right c] at h
      omega
    · rw [max_eq_left c]
      ring
  rw [hlog]
  simpa using Int.zpow_log_le_self Nat.one_lt_two hy0

/-! ### Rounding to binary32 precision -/

theorem rnd_zero : rnd 0 = 0 := by
  have : rne ((0 : ℤ) : ℚ) = 0 := rne_intCast 0
  simp only [Int.cast_zero] at this
  simp [rnd, this]

theorem rnd_neg (q : ℚ) : rnd (-q) = -rnd q := by
  unfold rnd
  rw [ulp_neg, neg_div, rne_neg]
  push_cast
  ring

theorem rnd_nonneg {q : ℚ} (h : 0 ≤ q) : 0 ≤ rnd q := by
  unfold rnd
  have : (0 : ℤ) ≤ rne (q / ulp q) :=
    le_rne_of_le (by simpa using div_nonneg h (ulp_pos q).le)
  have : (0 : ℚ) ≤ (rne (q / ulp q) : ℚ) := by exact_mod_cast this
  exact mul_nonneg this (ulp_pos q).le

theorem abs_rnd (q : ℚ) : |rnd q| = rnd |q| := by
  rcases le_total 0 q with h | h
  · rw [abs_of_nonneg h, abs_of_nonneg (rnd_nonneg h)]
  · have h' : 0 ≤ -q := by linarith
    have := rnd_nonneg h'
    rw [rnd_neg] at this
    rw [abs_of_nonpos h, abs_of_nonpos (by linarith), rnd_neg]

theorem rnd_eq_of_expo {q : ℚ} {E k : ℤ} (hE : expo q = E) (hk : rne (q / 2 ^ E) = k) :
    rnd q = (k : ℚ) * 2 ^ E := by
  unfold rnd ulp
  rw [hE, hk]

theorem abs_rnd_sub_le (q : ℚ) : |rnd q - q| ≤ ulp q / 2 := by
  have hw := ulp_pos q
  have h := abs_rne_sub_le (q / ulp q)
  have e : rnd q - q = ((rne (q / ulp q) : ℚ) - q / ulp q) * ulp q := by
    unfold rnd
    field_simp
  rw [e, abs_mul, abs_of_pos hw]
  calc |(rne (q / ulp q) : ℚ) - q / ulp q| * ulp q ≤ 1 / 2 * ulp q :=
        mul_le_mul_of_nonneg_right h hw.le
    _ = ulp q / 2 := by ring

theorem abs_rne_div_ulp_le (q : ℚ) : |rne (q / ulp q)| ≤ 2 ^ 24 := by
  have hw := ulp_pos q
  have h := abs_lt_zpow_expo q
  have e : (2 : ℚ) ^ (expo q + 24) = 2 ^ 24 * ulp q := by
    unfold ulp
    rw [zpow_add₀ (by norm_num)]
    norm_num
    ring
  rw [e, abs_lt] at h
  rw [abs_le]
  constructor
  · apply le_rne_of_le
    rw [le_div_iff₀ hw]
    push_cast
    linarith
  · apply rne_le_of_le
    rw [div_le_iff₀ hw]
    push_cast
    linarith

/-- A dyadic number with a 24-bit mantissa and an exponent in range is left
unchanged by rounding. -/
theorem rnd_dyadic (n j : ℤ) (hn : |n| < 2 ^ 24) (hj : -149 ≤ j) :
    rnd ((n : ℚ) * 2 ^ j) = (n : ℚ) * 2 ^ j := by
  rcases eq_or_ne n 0 with h0 | h0
  · subst h0
    simp [rnd_zero]
  have h2j : (0 : ℚ) < 2 ^ j := by positivity
  have hq : (n : ℚ) * 2 ^ j ≠ 0 := mul_ne_zero (by exact_mod_cast h0) h2j.ne'
  have hnq : |(n : ℚ)| < 2 ^ 24 := by exact_mod_cast hn
  have habs : |(n : ℚ) * 2 ^ j| < 2 ^ (j + 24) := by
    rw [abs_mul, abs_of_pos h2j, zpow_add₀ (by norm_num : (2 : ℚ) ≠ 0), mul_comm]
    have : (2 : ℚ) ^ (24 : ℤ) = 2 ^ 24 := by norm_num
    rw [this]
    exact mul_lt_mul_of_pos_left hnq h2j
  have hE : expo ((n : ℚ) * 2 ^ j) ≤ j := by
    rcases le_total (-126) (j + 23) with c | c
    · have := expo_le_of_lt hq (by rwa [show j + 23 + 1 = j + 24 by ring]) c
      omega
    · have hlt : |(n : ℚ) * 2 ^ j| < 2 ^ ((-126 : ℤ) + 1) :=
        lt_of_lt_of_le habs (zpow_le_zpow_right₀ (by norm_num) (by omega))
      have := expo_le_of_lt hq hlt (le_refl _)
      omega
  obtain ⟨d, hd⟩ : ∃ d : ℕ, j = expo ((n : ℚ) * 2 ^ j) + d :=
    ⟨(j - expo ((n : ℚ) * 2 ^ j)).toNat, by omega⟩
  have hdiv : (n : ℚ) * 2 ^ j / ulp ((n : ℚ) * 2 ^ j) = ((n * 2 ^ d : ℤ) : ℚ) := by
    unfold ulp
    have hw : (0 : ℚ) < 2 ^ expo ((n : ℚ) * 2 ^ j) := by positivity
    rw [div_eq_iff hw.ne']
    nth_rewrite 1 [hd]
    rw [zpow_add₀ (by norm_num : (2 : ℚ) ≠ 0), zpow_natCast]
    push_cast
    ring
  unfold rnd
  rw [hdiv, rne_intCast, ← hdiv]
  exact div_mul_cancel₀ _ (ulp_pos _).ne'

theorem rnd_rnd (z : ℚ) : rnd (rnd z) = rnd z := by
  have hk := abs_rne_div_ulp_le z
  have hE := expo_ge z
  rcases hk.lt_or_eq with h | h
  · exact rnd_dyadic _ _ h hE
  · have hval : rnd z = ((rne (z / ulp z) / 2 : ℤ) : ℚ) * 2 ^ (expo z + 1) := by
      have hdvd : (2 : ℤ) ∣ rne (z / ulp z) := by
        rcases abs_eq (by norm_num : (0 : ℤ) ≤ 2 ^ 24) |>.mp h with e | e <;> rw [e] <;> norm_num
      obtain ⟨m, hm⟩ := hdvd
      unfold rnd
      rw [hm, Int.mul_ediv_cancel_left _ (by norm_num)]
      unfold ulp
      rw [zpow_add₀ (by norm_num : (2 : ℚ) ≠ 0)]
      push_cast
      ring
    rw [hval]
    apply rnd_dyadic
    · rcases abs_eq (by norm_num : (0 : ℤ) ≤ 2 ^ 24) |>.mp h with e | e <;> rw [e] <;> norm_num
    · omega

/-- Rounding does not cross a representable upper bound. -/
theorem rnd_le_of_le {x B : ℚ} (hB : rnd B = B) (hx0 : 0 ≤ x) (hxB : x ≤ B) : rnd x ≤ B := by
  rcases hx0.eq_or_lt with h0 | hpos
  · rw [← h0, rnd_zero]
    linarith
  have hBpos : 0 < B := lt_of_lt_of_le hpos hxB
  have hExB : expo x ≤ expo B :=
    expo_mono hpos.ne' (by rwa [abs_of_pos hpos, abs_of_pos hBpos])
  have hwx := ulp_pos x
  rcases hExB.eq_or_lt with he | hlt
  · have hu : ulp x = ulp B := by unfold ulp; rw [he]
    have hBk : (rne (B / ulp B) : ℚ) * ulp B = B := hB
    have hle : rne (x / ulp x) ≤ rne (B / ulp B) := by
      apply rne_le_of_le
      rw [hu, div_le_iff₀ (ulp_pos B), hBk]
      exact hxB
    have hle' : (rne (x / ulp x) : ℚ) ≤ (rne (B / ulp B) : ℚ) := by exact_mod_cast hle
    calc rnd x = (rne (x / ulp x) : ℚ) * ulp x := rfl
      _ ≤ (rne (B / ulp B) : ℚ) * ulp x := mul_le_mul_of_nonneg_right hle' hwx.le
      _ = (rne (B / ulp B) : ℚ) * ulp B := by rw [hu]
      _ = B := hBk
  · have h1 : rnd x ≤ 2 ^ 24 * ulp x := by
      unfold rnd
      have := (abs_le.mp (abs_rne_div_ulp_le x)).2
      have : (rne (x / ulp x) : ℚ) ≤ 2 ^ 24 := by exact_mod_cast this
      exact mul_le_mul_of_nonneg_right this hwx.le
    have h2 : (2 : ℚ) ^ 24 * ulp x = 2 ^ (expo x + 24) := by
      unfold ulp
      rw [zpow_add₀ (by norm_num : (2 : ℚ) ≠ 0)]
      norm_num
      ring
    have h3 : (2 : ℚ) ^ (expo x + 24) ≤ 2 ^ (expo B + 23) :=
      zpow_le_zpow_right₀ (by norm_num) (by omega)
    have h4 := zpow_expo_le_of_lt hBpos.ne' hlt
    rw [abs_of_pos hBpos] at h4
    linarith

/-- Rounding does not cross a representable lower bound. -/
theorem le_rnd_of_le {x u : ℚ} (hu : rnd u = u) (hu0 : 0 ≤ u) (hux : u ≤ x) : u ≤ rnd x := by
  rcases hu0.eq_or_lt with h0 | hpos
  · rw [← h0]
    exact rnd_nonneg (by linarith)
  have hxpos : 0 < x := lt_of_lt_of_le hpos hux
  have hE : expo u ≤ expo x :=
    expo_mono hpos.ne' (by rwa [abs_of_pos hpos, abs_of_pos hxpos])
  have hwx := ulp_pos x
  rcases hE.eq_or_lt with he | hlt
  · have huu : ulp u = ulp x := by unfold ulp; rw [he]
    have huk : (rne (u / ulp u) : ℚ) * ulp u = u := hu
    have hle : rne (u / ulp u) ≤ rne (x / ulp x) := by
      apply le_rne_of_le
      rw [← huu, le_div_iff₀ (ulp_pos u), huk]
      exact hux
    have hle' : (rne (u / ulp u) : ℚ) ≤ (rne (x / ulp x) : ℚ) := by exact_mod_cast hle
    calc u = (rne (u / ulp u) : ℚ) * ulp u := huk.symm
      _ = (rne (u / ulp u) : ℚ) * ulp x := by rw [huu]
      _ ≤ (rne (x / ulp x) : ℚ) * ulp x := mul_le_mul_of_nonneg_right hle' hwx.le
      _ = rnd x := rfl
  · have h4 := zpow_expo_le_of_lt hxpos.ne' hlt
    rw [abs_of_pos hxpos] at h4
    have hsplit : (2 : ℚ) ^ (expo x + 23) = 2 ^ 23 * ulp x := by
      unfold ulp
      rw [zpow_add₀ (by norm_num : (2 : ℚ) ≠ 0)]
      norm_num
      ring
    have hk : ((2 ^ 23 : ℤ)) ≤ rne (x / ulp x) := by
      apply le_rne_of_le
      rw [le_div_iff₀ hwx]
      push_cast
      linarith
    have hk' : (2 : ℚ) ^ 23 ≤ (rne (x / ulp x) : ℚ) := by exact_mod_cast hk
    have h1 : (2 : ℚ) ^ 23 * ulp x ≤ rnd x := by
      unfold rnd
      exact mul_le_mul_of_nonneg_right hk' hwx.le
    have h5 := abs_lt_zpow_expo u
    rw [abs_of_pos hpos] at h5
    have h6 : (2 : ℚ) ^ (expo u + 24) ≤ 2 ^ (expo x + 23) :=
      zpow_le_zpow_right₀ (by norm_num) (by omega)
    linarith

theorem abs_rnd_le_of_abs_le {x B : ℚ} (hB : rnd B = B) (h : |x| ≤ B) : |rnd x| ≤ B := by
  rw [abs_rnd]
  exact rnd_le_of_le hB (abs_nonneg x) h

/-! ### Operations on finite values -/

theorem add_fin (a b : ℚ) : add (fin a) (fin b) = round (a + b) := rfl

theorem sub_fin (a b : ℚ) : sub (fin a) (fin b) = round (a - b) := by
  unfold sub neg
  rw [add_fin, sub_eq_add_neg]

theorem mul_fin (a b : ℚ) : mul (fin a) (fin b) = round (a * b) := rfl

theorem abs_fin (a : ℚ) : abs (fin a) = fin |a| := rfl

theorem neg_fin (a : ℚ) : neg (fin a) = fin (-a) := rfl

theorem div_const_fin (a c : ℚ) : div_const (fin a) c = round (a / c) := rfl

theorem le_fin (a b : ℚ) : le (fin a) (fin b) = decide (a ≤ b) := rfl

theorem lt_double_fin (a d : ℚ) : lt_double (fin a) d = decide (a < d) := rfl

/-! ### Rounding with overflow -/

theorem round_zero : round 0 = fin 0 := by
  unfold round
  rw [rnd_zero, if_pos]
  unfold maxFinite
  norm_num

theorem round_of_rnd {q r : ℚ} (h : rnd q = r) (hr : |r| ≤ maxFinite) : round q = fin r := by
  unfold round
  rw [h, if_pos hr]

theorem rnd_eq_of_binade {q : ℚ} (e k : ℤ) (h1 : (2 : ℚ) ^ e ≤ |q|) (h2 : |q| < 2 ^ (e + 1))
    (he : -126 ≤ e) (hk : rne (q / 2 ^ (e - 23)) = k) : rnd q = (k : ℚ) * 2 ^ (e - 23) :=
  rnd_eq_of_expo (expo_eq_of_binade h1 h2 he) hk

/-- A dyadic number with a 24-bit mantissa and an exponent in range is a
binary32 value. -/
theorem round_dyadic {q : ℚ} (n j : ℤ) (hq : q = (n : ℚ) * 2 ^ j) (hn : |n| < 2 ^ 24)
    (hj : -149 ≤ j) (hj' : j ≤ 104) : round q = fin q := by
  apply round_of_rnd
  · rw [hq]
    exact rnd_dyadic n j hn hj
  · rw [hq, abs_mul, abs_of_pos (by positivity : (0 : ℚ) < 2 ^ j)]
    have h1 : |(n : ℚ)| ≤ 2 ^ 24 - 1 := by
      have : |n| ≤ 2 ^ 24 - 1 := by omega
      exact_mod_cast this
    have h2 : (2 : ℚ) ^ j ≤ 2 ^ (104 : ℤ) := zpow_le_zpow_right₀ (by norm_num) hj'
    have h3 : (2 : ℚ) ^ (104 : ℤ) = 2 ^ 104 := by norm_num
    unfold maxFinite
    rw [← h3]
    exact mul_le_mul h1 h2 (by positivity) (by norm_num)

/-- A computed finite value is a binary32 value. -/
theorem round_of_round_eq {z d : ℚ} (h : round z = fin d) : round d = fin d := by
  unfold round at h
  split_ifs at h with a
  injection h with h
  subst h
  exact round_of_rnd (rnd_rnd z) a

theorem round_eq_fin_or_inf (q : ℚ) : (∃ d, round q = fin d) ∨ round q = pinf ∨ round q = ninf := by
  unfold round
  split_ifs
  · exact Or.inl ⟨_, rfl⟩
  · exact Or.inr (Or.inl rfl)
  · exact Or.inr (Or.inr rfl)

/-- Overflow: a sum, difference or product of at least `2^128` becomes
`+inf`. -/
theorem round_of_large {q : ℚ} (h : (2 : ℚ) ^ 128 ≤ q) : round q = pinf := by
  have hfix : rnd ((2 : ℚ) ^ 128) = 2 ^ 128 := by
    have e : (2 : ℚ) ^ 128 = ((1 : ℤ) : ℚ) * 2 ^ (128 : ℤ) := by
      rw [Int.cast_one, one_mul]
      exact (zpow_ofNat (2 : ℚ) 128).symm
    rw [e]
    exact rnd_dyadic 1 128 (by norm_num) (by norm_num)
  have hge : (2 : ℚ) ^ 128 ≤ rnd q := le_rnd_of_le hfix (by positivity) h
  have hq : 0 < q := lt_of_lt_of_le (by positivity) h
  unfold round
  rw [if_neg, if_pos hq]
  rw [abs_of_nonneg (rnd_nonneg hq.le)]
  unfold maxFinite
  have e : (2 : ℚ) ^ 128 = 2 ^ 24 * 2 ^ 104 := by rw [← pow_add]
  have hp : (0 : ℚ) < 2 ^ 104 := by positivity
  rw [e] at hge
  nlinarith

end F32

/-! ## The containment test in binary32 -/

namespace Binary32

/-- The four branches of the binary32 test: each axis must pass the `<=`
comparison or the tolerance comparison. -/
theorem contains_point_iff_axes (r : Rectangle F32) (p : Point2D F32) :
    Rectangle.contains_point r p = true ↔
      (F32.le (Rectangle.magnitude_major r p) r.half_extents_major = true
        ∨ Math.nearly_equal (Rectangle.magnitude_major r p) r.half_extents_major = true)
      ∧ (F32.le (Rectangle.magnitude_minor r p) r.half_extents_minor = true
        ∨ Math.nearly_equal (Rectangle.magnitude_minor r p) r.half_extents_minor = true) := by
  unfold Rectangle.contains_point Rectangle.magnitude_major Rectangle.magnitude_minor
  dsimp only
  generalize F32.le (F32.abs (Vector2D.dot_product (Math.get_vector_from_A_to_B r.center p)
    r.axis_major)) r.half_extents_major = a1
  generalize F32.le (F32.abs (Vector2D.dot_product (Math.get_vector_from_A_to_B r.center p)
    r.axis_minor)) r.half_extents_minor = a2
  generalize Math.nearly_equal (F32.abs (Vector2D.dot_product
    (Math.get_vector_from_A_to_B r.center p) r.axis_major)) r.half_extents_major = n1
  generalize Math.nearly_equal (F32.abs (Vector2D.dot_product
    (Math.get_vector_from_A_to_B r.center p) r.axis_minor)) r.half_extents_minor = n2
  cases a1 <;> cases a2 <;> cases n1 <;> cases n2 <;> simp

/-- Projections of a finite displacement on the axes `(1,0)` and `(0,1)`. -/
theorem from_center_magnitudes (cx cy px py : ℚ) (a b : F32) (dx dy : ℚ)
    (hx : F32.sub (F32.fin px) (F32.fin cx) = F32.fin dx)
    (hy : F32.sub (F32.fin py) (F32.fin cy) = F32.fin dy) :
    Rectangle.magnitude_major (Rectangle.from_center ⟨F32.fin cx, F32.fin cy⟩ a b)
        ⟨F32.fin px, F32.fin py⟩ = F32.fin |dx|
    ∧ Rectangle.magnitude_minor (Rectangle.from_center ⟨F32.fin cx, F32.fin cy⟩ a b)
        ⟨F32.fin px, F32.fin py⟩ = F32.fin |dy| := by
  have rx : F32.round dx = F32.fin dx := F32.round_of_round_eq (by rwa [F32.sub_fin] at hx)
  have ry : F32.round dy = F32.fin dy := F32.round_of_round_eq (by rwa [F32.sub_fin] at hy)
  constructor
  · simp only [Rectangle.magnitude_major, Rectangle.from_center, Math.get_vector_from_A_to_B,
      Vector2D.ofPoint, Point2D.sub, Vector2D.dot_product, Vector2D.ofXY, hx, hy]
    rw [F32.mul_fin, F32.mul_fin, mul_one, mul_zero, rx, F32.round_zero, F32.add_fin, add_zero,
      rx, F32.abs_fin]
  · simp only [Rectangle.magnitude_minor, Rectangle.from_center, Math.get_vector_from_A_to_B,
      Vector2D.ofPoint, Point2D.sub, Vector2D.dot_product, Vector2D.ofXY, hx, hy]
    rw [F32.mul_fin, F32.mul_fin, mul_one, mul_zero, ry, F32.round_zero, F32.add_fin, zero_add,
      ry, F32.abs_fin]

/-- The smallest binary32 number above `1e-5`. -/
theorem rnd_above_tolerance : F32.rnd (10995117 / 2 ^ 40) = 10995117 / 2 ^ 40 := by
  have e : (10995117 / 2 ^ 40 : ℚ) = ((10995117 : ℤ) : ℚ) * 2 ^ (-40 : ℤ) := by norm_num
  rw [e]
  exact F32.rnd_dyadic 10995117 (-40) (by norm_num) (by norm_num)

/-- A magnitude exceeding the half-extent by `1.00000007e-5` fails both
comparisons of its axis. -/
theorem axis_fails (m h : ℚ) (hm : |h| + 100000007 / 10 ^ 13 ≤ m) :
    F32.le (F32.fin m) (F32.abs (F32.fin h)) = false
    ∧ Math.nearly_equal (F32.fin m) (F32.abs (F32.fin h)) = false := by
  constructor
  · rw [F32.abs_fin, F32.le_fin, decide_eq_false_iff_not]
    linarith
  · unfold Math.nearly_equal
    rw [F32.abs_fin, F32.sub_fin]
    have hu : (10995117 / 2 ^ 40 : ℚ) ≤ m - |h| := by
      have : (10995117 / 2 ^ 40 : ℚ) ≤ 100000007 / 10 ^ 13 := by norm_num
      linarith
    have hr := F32.le_rnd_of_le rnd_above_tolerance (by norm_num) hu
    rcases F32.round_eq_fin_or_inf (m - |h|) with ⟨d, hd⟩ | hd | hd
    · have hd' : d = F32.rnd (m - |h|) := by
        unfold F32.round at hd
        split_ifs at hd
        injection hd with hd
        exact hd.symm
      rw [hd, F32.abs_fin, F32.lt_double_fin, decide_eq_false_iff_not, not_lt]
      rw [hd'] at *
      have h0 : (0 : ℚ) ≤ F32.rnd (m - |h|) := le_trans (by norm_num) hr
      rw [abs_of_nonneg h0]
      unfold Math.tolerance
      refine le_trans ?_ hr
      norm_num
    · rw [hd]
      rfl
    · rw [hd]
      rfl

theorem rejects_of_axis_fails_major {r : Rectangle F32} {p : Point2D F32}
    (h1 : F32.le (Rectangle.magnitude_major r p) r.half_extents_major = false)
    (h2 : Math.nearly_equal (Rectangle.magnitude_major r p) r.half_extents_major = false) :
    Rectangle.contains_point r p = false := by
  rw [Bool.eq_false_iff, Ne, contains_point_iff_axes, h1, h2]
  simp

theorem rejects_of_axis_fails_minor {r : Rectangle F32} {p : Point2D F32}
    (h1 : F32.le (Rectangle.magnitude_minor r p) r.half_extents_minor = false)
    (h2 : Math.nearly_equal (Rectangle.magnitude_minor r p) r.half_extents_minor = false) :
    Rectangle.contains_point r p = false := by
  rw [Bool.eq_false_iff, Ne, contains_point_iff_axes, h1, h2]
  simp

end Binary32

/-! ## Outside points in binary32 -/

/-- C13, as stated, fails in binary32 at two inputs.  First, with center
`(-1e8, 0)`, half-extents `(2e8, 1)` and point `(100000008, 0)` the
displacement `200000008` is rounded to `200000000`, so the point, which lies
`8` beyond the half-extent, is accepted.  Second, with center `(0,0)`,
half-extents `(8388609 * 2^-41, 1)` and point `(15189421 * 2^-40, 0)` the
displacement is exact and exceeds the half-extent by `21990233 * 2^-41`,
which is above `1e-5`; the program rounds this difference to
`10995116 * 2^-40`, which is below `1e-5`, and accepts the point. -/
theorem Binary32.outside_point_accepted :
    (F32.round (-100000000) = F32.fin (-100000000)
      ∧ F32.round 200000000 = F32.fin 200000000
      ∧ F32.round 100000008 = F32.fin 100000008
      ∧ |(200000000 : ℚ)| + 1 / 100000 ≤ |(100000008 : ℚ) - (-100000000)|
      ∧ Binary32.Rectangle.contains_point
          (Binary32.Rectangle.from_center ⟨F32.fin (-100000000), F32.fin 0⟩
            (F32.fin 200000000) (F32.fin 1))
          ⟨F32.fin 100000008, F32.fin 0⟩ = true)
    ∧ (F32.round (8388609 / 2 ^ 41) = F32.fin (8388609 / 2 ^ 41)
      ∧ F32.round (15189421 / 2 ^ 40) = F32.fin (15189421 / 2 ^ 40)
      ∧ |(8388609 / 2 ^ 41 : ℚ)| + 1 / 100000 ≤ |(15189421 / 2 ^ 40 : ℚ) - 0|
      ∧ Binary32.Rectangle.contains_point
          (Binary32.Rectangle.from_center ⟨F32.fin 0, F32.fin 0⟩
            (F32.fin (8388609 / 2 ^ 41)) (F32.fin 1))
          ⟨F32.fin (15189421 / 2 ^ 40), F32.fin 0⟩ = true) := by
  have h1 : F32.round 200000000 = F32.fin 200000000 :=
    F32.round_dyadic 12500000 4 (by norm_num) (by norm_num) (by norm_num) (by norm_num)
  have h2 : F32.round 200000008 = F32.fin 200000000 := by
    apply F32.round_of_rnd
    · rw [F32.rnd_eq_of_binade 27 12500000 (by norm_num) (by norm_num) (by norm_num)]
      · norm_num
      · have e : (200000008 : ℚ) / 2 ^ ((27 : ℤ) - 23) = ((12500000 : ℤ) : ℚ) + 1 / 2 := by
          norm_num
        rw [e]
        exact F32.rne_half_of_even 12500000 (by norm_num)
    · unfold F32.maxFinite
      norm_num
  have h3 : F32.round (15189421 / 2 ^ 40) = F32.fin (15189421 / 2 ^ 40) :=
    F32.round_dyadic 15189421 (-40) (by norm_num) (by norm_num) (by norm_num) (by norm_num)
  have h4 : F32.round (21990233 / 2 ^ 41) = F32.fin (10995116 / 2 ^ 40) := by
    apply F32.round_of_rnd
    · rw [F32.rnd_eq_of_binade (-17) 10995116 (by norm_num [abs_of_pos]) (by norm_num [abs_of_pos])
        (by norm_num)]
      · norm_num
      · have e : (21990233 / 2 ^ 41 : ℚ) / 2 ^ ((-17 : ℤ) - 23)
            = ((10995116 : ℤ) : ℚ) + 1 / 2 := by
          norm_num
        rw [e]
        exact F32.rne_half_of_even 10995116 (by norm_num)
    · unfold F32.maxFinite
      norm_num [abs_of_pos]
  refine ⟨⟨?_, h1, ?_, by norm_num, ?_⟩, ⟨?_, h3, by norm_num [abs_of_pos], ?_⟩⟩
  · exact F32.round_dyadic (-12500000) 3 (by norm_num) (by norm_num) (by norm_num) (by norm_num)
  · exact F32.round_dyadic 12500001 3 (by norm_num) (by norm_num) (by norm_num) (by norm_num)
  · obtain ⟨hM, hm⟩ := Binary32.from_center_magnitudes (-100000000) 0 100000008 0
      (F32.fin 200000000) (F32.fin 1) 200000000 0
      (by rw [F32.sub_fin]; norm_num; exact h2) (by rw [F32.sub_fin]; norm_num [F32.round_zero])
    rw [Binary32.contains_point_iff_axes, hM, hm]
    refine ⟨Or.inl ?_, Or.inl ?_⟩
    · simp [Binary32.Rectangle.from_center, F32.abs_fin, F32.le_fin]
    · simp [Binary32.Rectangle.from_center, F32.abs_fin, F32.le_fin]
  · exact F32.round_dyadic 8388609 (-41) (by norm_num) (by norm_num) (by norm_num) (by norm_num)
  · obtain ⟨hM, hm⟩ := Binary32.from_center_magnitudes 0 0 (15189421 / 2 ^ 40) 0
      (F32.fin (8388609 / 2 ^ 41)) (F32.fin 1) (15189421 / 2 ^ 40) 0
      (by rw [F32.sub_fin, sub_zero]; exact h3) (by rw [F32.sub_fin]; norm_num [F32.round_zero])
    rw [Binary32.contains_point_iff_axes, hM, hm]
    refine ⟨Or.inr ?_, Or.inl ?_⟩
    · have e : |(15189421 / 2 ^ 40 : ℚ)| - |(8388609 / 2 ^ 41 : ℚ)| = 21990233 / 2 ^ 41 := by
        norm_num [abs_of_pos]
      simp only [Binary32.Rectangle.from_center, Binary32.Math.nearly_equal, F32.abs_fin,
        F32.sub_fin]
      rw [e, h4, F32.abs_fin, F32.lt_double_fin, decide_eq_true_eq]
      unfold Binary32.Math.tolerance
      norm_num [abs_of_pos]
    · simp [Binary32.Rectangle.from_center, F32.abs_fin, F32.le_fin]

/-- C13, amended for binary32: outside points are rejected when the
distance is measured on the displacement the program computes.  For finite
`c`, `a`, `b` and `p` whose displacement `d = p - c`, computed in binary32,
is finite, if `|d.x| ≥ |a| + 1.00000007e-5` or `|d.y| ≥ |b| + 1.00000007e-5`
then `Rectangle(c, a, b).contains_point(p)` is false. -/
theorem Binary32.rejects_outside (cx cy px py a b dx dy : ℚ)
    (hx : F32.sub (F32.fin px) (F32.fin cx) = F32.fin dx)
    (hy : F32.sub (F32.fin py) (F32.fin cy) = F32.fin dy)
    (h : |a| + 100000007 / 10 ^ 13 ≤ |dx| ∨ |b| + 100000007 / 10 ^ 13 ≤ |dy|) :
    Binary32.Rectangle.contains_point
      (Binary32.Rectangle.from_center ⟨F32.fin cx, F32.fin cy⟩ (F32.fin a) (F32.fin b))
      ⟨F32.fin px, F32.fin py⟩ = false := by
  obtain ⟨hM, hm⟩ :=
    Binary32.from_center_magnitudes cx cy px py (F32.fin a) (F32.fin b) dx dy hx hy
  rcases h with h | h
  · obtain ⟨h1, h2⟩ := Binary32.axis_fails |dx| a h
    apply Binary32.rejects_of_axis_fails_major
    · rw [hM]
      exact h1
    · rw [hM]
      exact h2
  · obtain ⟨h1, h2⟩ := Binary32.axis_fails |dy| b h
    apply Binary32.rejects_of_axis_fails_minor
    · rw [hm]
      exact h1
    · rw [hm]
      exact h2

/-- Small integers are binary32 values. -/
theorem F32.round_int (n : ℤ) (hn : |n| < 2 ^ 24) : F32.round (n : ℚ) = F32.fin (n : ℚ) :=
  F32.round_dyadic n 0 (by simp) hn (by norm_num) (by norm_num)

/-- Witness for C13 (amended): center `(3,4)`, half-extents `(2,1)`, point
`(6,5)`, with computed displacement `(3,1)`. -/
theorem Binary32.rejects_outside_witness :
    F32.sub (F32.fin 6) (F32.fin 3) = F32.fin 3
    ∧ F32.sub (F32.fin 5) (F32.fin 4) = F32.fin 1
    ∧ (|(2 : ℚ)| + 100000007 / 10 ^ 13 ≤ |3| ∨ |(1 : ℚ)| + 100000007 / 10 ^ 13 ≤ |1|)
    ∧ Binary32.Rectangle.contains_point
        (Binary32.Rectangle.from_center ⟨F32.fin 3, F32.fin 4⟩ (F32.fin 2) (F32.fin 1))
        ⟨F32.fin 6, F32.fin 5⟩ = false :=
  have hx : F32.sub (F32.fin 6) (F32.fin 3) = F32.fin 3 := by
    rw [F32.sub_fin]
    have := F32.round_int 3 (by norm_num)
    norm_num at this ⊢
    exact this
  have hy : F32.sub (F32.fin 5) (F32.fin 4) = F32.fin 1 := by
    rw [F32.sub_fin]
    have := F32.round_int 1 (by norm_num)
    norm_num at this ⊢
    exact this
  ⟨hx, hy, Or.inl (by norm_num),
    Binary32.rejects_outside 3 4 6 5 2 1 3 1 hx hy (Or.inl (by norm_num))⟩

/-! ## Overflow: zero axes and the center -/

theorem F32.round_two_pow_127 :
    F32.round (2 ^ 127) = F32.fin (2 ^ 127) ∧ F32.round (-2 ^ 127) = F32.fin (-2 ^ 127) := by
  have e : (2 : ℚ) ^ 127 = ((8388608 : ℤ) : ℚ) * 2 ^ (104 : ℤ) := by
    rw [zpow_ofNat]
    norm_num
  have e' : -(2 : ℚ) ^ 127 = ((-8388608 : ℤ) : ℚ) * 2 ^ (104 : ℤ) := by
    rw [zpow_ofNat]
    norm_num
  exact ⟨F32.round_dyadic 8388608 104 e (by norm_num) (by norm_num) (by norm_num),
    F32.round_dyadic (-8388608) 104 e' (by norm_num) (by norm_num) (by norm_num)⟩

/-- The difference `2^127 - (-2^127)` overflows. -/
theorem F32.sub_overflow : F32.sub (F32.fin (2 ^ 127)) (F32.fin (-2 ^ 127)) = F32.pinf := by
  rw [F32.sub_fin]
  apply F32.round_of_large
  have : (2 : ℚ) ^ 128 = 2 ^ 127 + 2 ^ 127 := by ring
  rw [this]
  linarith

theorem F32.sub_zero_zero : F32.sub (F32.fin 0) (F32.fin 0) = F32.fin 0 := by
  rw [F32.sub_fin, sub_zero, F32.round_zero]

theorem F32.sub_self_fin (a : ℚ) : F32.sub (F32.fin a) (F32.fin a) = F32.fin 0 := by
  rw [F32.sub_fin, sub_self, F32.round_zero]

theorem F32.zero_mul_fin (a : ℚ) : F32.mul (F32.fin 0) (F32.fin a) = F32.fin 0 := by
  rw [F32.mul_fin, zero_mul, F32.round_zero]

theorem F32.fin_mul_zero (a : ℚ) : F32.mul (F32.fin a) (F32.fin 0) = F32.fin 0 := by
  rw [F32.mul_fin, mul_zero, F32.round_zero]

theorem F32.zero_add_zero : F32.add (F32.fin 0) (F32.fin 0) = F32.fin 0 := by
  rw [F32.add_fin, add_zero, F32.round_zero]

theorem F32.isFinite_iff (x : F32) : F32.isFinite x = true ↔ ∃ q, x = F32.fin q := by
  cases x <;> simp [F32.isFinite]

theorem F32.le_zero_abs_round (q : ℚ) : F32.le (F32.fin 0) (F32.abs (F32.round q)) = true := by
  rcases F32.round_eq_fin_or_inf q with ⟨d, hd⟩ | hd | hd <;> rw [hd]
  · rw [F32.abs_fin, F32.le_fin, decide_eq_true_eq]
    exact abs_nonneg d
  · rfl
  · rfl

theorem F32.le_zero_abs_half_sub (a b : ℚ) :
    F32.le (F32.fin 0) (F32.abs (F32.div_const (F32.sub (F32.fin a) (F32.fin b)) 2)) = true := by
  rw [F32.sub_fin]
  rcases F32.round_eq_fin_or_inf (a - b) with ⟨d, hd⟩ | hd | hd <;> rw [hd]
  · rw [F32.div_const_fin]
    exact F32.le_zero_abs_round _
  · rfl
  · rfl

theorem F32.nan_le (x : F32) : F32.le F32.nan x = false := by
  cases x <;> rfl

theorem F32.sub_nan (x : F32) : F32.sub F32.nan x = F32.nan := by
  cases x <;> rfl

namespace Binary32

theorem nearly_equal_nan (x : F32) : Math.nearly_equal F32.nan x = false := by
  unfold Math.nearly_equal
  rw [F32.sub_nan]
  rfl

/-- A NaN projection fails every branch. -/
theorem rejects_of_nan_major {r : Rectangle F32} {p : Point2D F32}
    (h : Rectangle.magnitude_major r p = F32.nan) : Rectangle.contains_point r p = false := by
  apply rejects_of_axis_fails_major <;> rw [h]
  · exact F32.nan_le _
  · exact nearly_equal_nan _

/-- With both axes at `(0,0)` and a finite displacement both projections are
zero. -/
theorem magnitudes_of_zero_axes (r : Rectangle F32) (P : Point2D F32)
    (hM : r.axis_major = Vector2D.zero) (hm : r.axis_minor = Vector2D.zero)
    (hx : F32.isFinite (Math.get_vector_from_A_to_B r.center P).x = true)
    (hy : F32.isFinite (Math.get_vector_from_A_to_B r.center P).y = true) :
    Rectangle.magnitude_major r P = F32.fin 0 ∧ Rectangle.magnitude_minor r P = F32.fin 0 := by
  obtain ⟨dx, hdx⟩ := (F32.isFinite_iff _).mp hx
  obtain ⟨dy, hdy⟩ := (F32.isFinite_iff _).mp hy
  unfold Rectangle.magnitude_major Rectangle.magnitude_minor Vector2D.dot_product
  rw [hM, hm, hdx, hdy]
  simp only [Vector2D.zero, Point2D.origin]
  rw [F32.fin_mul_zero, F32.fin_mul_zero, F32.zero_add_zero, F32.abs_fin, abs_zero]
  exact ⟨rfl, rfl⟩

/-- Zero projections pass the first comparison as soon as the half-extents
are non-negative. -/
theorem contains_of_zero_magnitudes (r : Rectangle F32) (P : Point2D F32)
    (hM : Rectangle.magnitude_major r P = F32.fin 0)
    (hm : Rectangle.magnitude_minor r P = F32.fin 0)
    (h1 : F32.le (F32.fin 0) r.half_extents_major = true)
    (h2 : F32.le (F32.fin 0) r.half_extents_minor = true) :
    Rectangle.contains_point r P = true := by
  rw [contains_point_iff_axes, hM, hm]
  exact ⟨Or.inl h1, Or.inl h2⟩

/-- Both half-extents of a reachable rectangle are non-negative numbers or
`+inf`. -/
theorem Reachable.extents_nonneg {cosf sinf : F32 → F32} {r : Rectangle F32}
    (hr : Reachable cosf sinf r) :
    F32.le (F32.fin 0) r.half_extents_major = true
      ∧ F32.le (F32.fin 0) r.half_extents_minor = true := by
  induction hr with
  | corners x0 y0 x1 y1 => exact ⟨F32.le_zero_abs_half_sub _ _, F32.le_zero_abs_half_sub _ _⟩
  | center cx cy a b =>
    constructor <;>
    · simp only [Rectangle.from_center, F32.abs_fin, F32.le_fin, decide_eq_true_eq]
      exact abs_nonneg _
  | rotation cx cy a b rot =>
    constructor <;>
    · simp only [Rectangle.from_rotation, Rectangle.from_center, F32.abs_fin, F32.le_fin,
        decide_eq_true_eq]
      exact abs_nonneg _
  | copy _ ih => exact ih
  | assign _ _ _ ih => exact ih

end Binary32

/-- C16, as stated, fails in binary32: the copy of
`Rectangle(Point2D(-2^127, 0), 1, 1)` has both axes `(0,0)`, but for the
point `(2^127, 0)` the displacement overflows to `+inf`, `inf * 0` is NaN,
every comparison with NaN is false, and `contains_point` returns false. -/
theorem Binary32.copy_rejects_far_point :
    F32.round (2 ^ 127) = F32.fin (2 ^ 127)
    ∧ F32.round (-2 ^ 127) = F32.fin (-2 ^ 127)
    ∧ (Binary32.Rectangle.copy (Binary32.Rectangle.from_center
        ⟨F32.fin (-2 ^ 127), F32.fin 0⟩ (F32.fin 1) (F32.fin 1))).axis_major
        = Binary32.Vector2D.ofXY (F32.fin 0) (F32.fin 0)
    ∧ (Binary32.Rectangle.copy (Binary32.Rectangle.from_center
        ⟨F32.fin (-2 ^ 127), F32.fin 0⟩ (F32.fin 1) (F32.fin 1))).axis_minor
        = Binary32.Vector2D.ofXY (F32.fin 0) (F32.fin 0)
    ∧ Binary32.Rectangle.magnitude_major
        (Binary32.Rectangle.copy (Binary32.Rectangle.from_center
          ⟨F32.fin (-2 ^ 127), F32.fin 0⟩ (F32.fin 1) (F32.fin 1)))
        ⟨F32.fin (2 ^ 127), F32.fin 0⟩ = F32.nan
    ∧ Binary32.Rectangle.contains_point
        (Binary32.Rectangle.copy (Binary32.Rectangle.from_center
          ⟨F32.fin (-2 ^ 127), F32.fin 0⟩ (F32.fin 1) (F32.fin 1)))
        ⟨F32.fin (2 ^ 127), F32.fin 0⟩ = false := by
  have hM : Binary32.Rectangle.magnitude_major
      (Binary32.Rectangle.copy (Binary32.Rectangle.from_center
        ⟨F32.fin (-2 ^ 127), F32.fin 0⟩ (F32.fin 1) (F32.fin 1)))
      ⟨F32.fin (2 ^ 127), F32.fin 0⟩ = F32.nan := by
    simp only [Binary32.Rectangle.magnitude_major, Binary32.Rectangle.copy,
      Binary32.Rectangle.from_center, Binary32.Rectangle.default_members,
      Binary32.Math.get_vector_from_A_to_B, Binary32.Vector2D.ofPoint, Binary32.Point2D.sub,
      Binary32.Vector2D.dot_product, Binary32.Vector2D.zero, Binary32.Point2D.origin,
      F32.sub_overflow, F32.sub_zero_zero]
    rfl
  refine ⟨F32.round_two_pow_127.1, F32.round_two_pow_127.2, rfl, rfl, hM, ?_⟩
  exact Binary32.rejects_of_nan_major hM

/-- C17, as stated, fails in binary32: for
`Rectangle(Point2D(-2^127, 0), Point2D(2^127, 0))` the diagonal overflows,
the stored center is `(+inf, 0)`, the displacement `center - center` is
`inf - inf`, which is NaN, and `contains_point(center)` returns false. -/
theorem Binary32.center_not_contained :
    F32.round (2 ^ 127) = F32.fin (2 ^ 127)
    ∧ F32.round (-2 ^ 127) = F32.fin (-2 ^ 127)
    ∧ (Binary32.Rectangle.from_corners ⟨F32.fin (-2 ^ 127), F32.fin 0⟩
        ⟨F32.fin (2 ^ 127), F32.fin 0⟩).center = ⟨F32.pinf, F32.fin 0⟩
    ∧ Binary32.Rectangle.contains_point
        (Binary32.Rectangle.from_corners ⟨F32.fin (-2 ^ 127), F32.fin 0⟩
          ⟨F32.fin (2 ^ 127), F32.fin 0⟩)
        (Binary32.Rectangle.from_corners ⟨F32.fin (-2 ^ 127), F32.fin 0⟩
          ⟨F32.fin (2 ^ 127), F32.fin 0⟩).center = false := by
  have hc : (Binary32.Rectangle.from_corners ⟨F32.fin (-2 ^ 127), F32.fin 0⟩
      ⟨F32.fin (2 ^ 127), F32.fin 0⟩).center = ⟨F32.pinf, F32.fin 0⟩ := by
    simp only [Binary32.Rectangle.from_corners, Binary32.Math.get_vector_from_A_to_B,
      Binary32.Vector2D.ofPoint, Binary32.Point2D.sub, F32.sub_overflow, F32.sub_zero_zero,
      F32.div_const_fin, zero_div, F32.round_zero, F32.zero_add_zero]
    rfl
  have hM : Binary32.Rectangle.magnitude_major
      (Binary32.Rectangle.from_corners ⟨F32.fin (-2 ^ 127), F32.fin 0⟩
        ⟨F32.fin (2 ^ 127), F32.fin 0⟩)
      (Binary32.Rectangle.from_corners ⟨F32.fin (-2 ^ 127), F32.fin 0⟩
        ⟨F32.fin (2 ^ 127), F32.fin 0⟩).center = F32.nan := by
    rw [hc]
    unfold Binary32.Rectangle.magnitude_major
    rw [hc]
    rfl
  refine ⟨F32.round_two_pow_127.1, F32.round_two_pow_127.2, hc, ?_⟩
  exact Binary32.rejects_of_nan_major hM

theorem F32.rnd_int (n : ℤ) (hn : |n| < 2 ^ 24) : F32.rnd (n : ℚ) = (n : ℚ) := by
  have := F32.rnd_dyadic n 0 hn (by norm_num)
  simpa using this

/-- A result bounded by a representable number in range is finite and
keeps the bound. -/
theorem F32.round_eq_of_abs_le (q : ℚ) {B : ℚ} (hB : F32.rnd B = B) (hBmax : B ≤ F32.maxFinite)
    (h : |q| ≤ B) : F32.round q = F32.fin (F32.rnd q) ∧ |F32.rnd q| ≤ B :=
  ⟨F32.round_of_rnd rfl (le_trans (F32.abs_rnd_le_of_abs_le hB h) hBmax),
    F32.abs_rnd_le_of_abs_le hB h⟩

theorem F32.round_fin_of_abs_le (q : ℚ) {B : ℚ} (hB : F32.rnd B = B) (hBmax : B ≤ F32.maxFinite)
    (h : |q| ≤ B) : ∃ d, F32.round q = F32.fin d ∧ |d| ≤ B :=
  ⟨F32.rnd q, F32.round_eq_of_abs_le q hB hBmax h⟩

/-- The binary32 value of the constant `3.14159265359f`. -/
theorem Binary32.PI_eq : Binary32.Math.PI = F32.fin (13176795 / 2 ^ 22) := by
  unfold Binary32.Math.PI
  apply F32.round_of_rnd
  · rw [F32.rnd_eq_of_binade 1 13176795 (by norm_num [abs_of_pos]) (by norm_num [abs_of_pos])
      (by norm_num)]
    · norm_num
    · apply F32.rne_of_abs_sub_lt
      norm_num [abs_lt]
  · unfold F32.maxFinite
    norm_num [abs_of_pos]

/-- The angle computed by `deg_to_radians` from a finite input is finite. -/
theorem Binary32.deg_to_radians_finite (rot : ℚ) :
    ∃ t, Binary32.Math.deg_to_radians (F32.fin rot) = F32.fin t := by
  have hf : |Koolhaus.Math.fmod rot 360| ≤ 360 := by
    rw [abs_le]
    rcases le_total 0 rot with h | h
    · have := Koolhaus.Math.fmod_of_nonneg h (by norm_num : (0 : ℚ) < 360)
      constructor <;> linarith
    · have := Koolhaus.Math.fmod_of_nonpos h (by norm_num : (0 : ℚ) < 360)
      constructor <;> linarith
  have h2 : F32.rnd 2 = 2 := by
    have := F32.rnd_int 2 (by norm_num)
    simpa using this
  have h8 : F32.rnd 8 = 8 := by
    have := F32.rnd_int 8 (by norm_num)
    simpa using this
  have hmax2 : (2 : ℚ) ≤ F32.maxFinite := by unfold F32.maxFinite; norm_num
  have hmax8 : (8 : ℚ) ≤ F32.maxFinite := by unfold F32.maxFinite; norm_num
  obtain ⟨w, hw, hwb⟩ := F32.round_fin_of_abs_le (Koolhaus.Math.fmod rot 360 / 180) h2 hmax2
    (by rw [abs_div]; norm_num; rw [div_le_iff₀ (by norm_num)]; linarith)
  obtain ⟨t, ht, -⟩ := F32.round_fin_of_abs_le (w * (13176795 / 2 ^ 22)) h8 hmax8
    (by
      rw [abs_mul]
      have : |(13176795 / 2 ^ 22 : ℚ)| ≤ 4 := by norm_num [abs_of_pos]
      calc |w| * |(13176795 / 2 ^ 22 : ℚ)| ≤ 2 * 4 :=
            mul_le_mul hwb this (abs_nonneg _) (by norm_num)
        _ = 8 := by norm_num)
  refine ⟨t, ?_⟩
  unfold Binary32.Math.deg_to_radians
  have hfm : Binary32.Math.fmod (F32.fin rot) (F32.fin 360)
      = F32.fin (Koolhaus.Math.fmod rot 360) := by
    simp [Binary32.Math.fmod]
  rw [hfm, F32.div_const_fin, hw, Binary32.PI_eq, F32.mul_fin, ht]

namespace Binary32

/-- All four axis components of a reachable rectangle are finite when the
library functions return finite values at finite arguments. -/
theorem Reachable.axes_finite {cosf sinf : F32 → F32}
    (hlib : ∀ q : ℚ, F32.isFinite (cosf (F32.fin q)) = true
      ∧ F32.isFinite (sinf (F32.fin q)) = true)
    {r : Rectangle F32} (hr : Reachable cosf sinf r) :
    ∃ a b c d : ℚ, r.axis_major = Vector2D.ofXY (F32.fin a) (F32.fin b)
      ∧ r.axis_minor = Vector2D.ofXY (F32.fin c) (F32.fin d) := by
  induction hr with
  | corners x0 y0 x1 y1 => exact ⟨0, 0, 0, 0, rfl, rfl⟩
  | center cx cy a b => exact ⟨1, 0, 0, 1, rfl, rfl⟩
  | rotation cx cy a b rot =>
    obtain ⟨t, ht⟩ := deg_to_radians_finite rot
    obtain ⟨hc, hs⟩ := hlib t
    obtain ⟨c, hc⟩ := (F32.isFinite_iff _).mp hc
    obtain ⟨s, hs⟩ := (F32.isFinite_iff _).mp hs
    refine ⟨c, s, -s, c, ?_, ?_⟩
    · simp only [Rectangle.from_rotation, ht, hc, hs]
    · simp only [Rectangle.from_rotation, ht, hc, hs, F32.neg_fin]
  | copy _ _ => exact ⟨0, 0, 0, 0, rfl, rfl⟩
  | assign _ _ ih _ => exact ih

end Binary32

/-- C16, amended for binary32: a rectangle produced by the two-corner
constructor, or by the copy constructor from any reachable rectangle, has
`axis_major = axis_minor = (0,0)`, and `contains_point(P)` returns true for
every point `P` whose displacement from the stored center, computed in
binary32, is finite (the center is finite and `P - center` does not
overflow), however far outside the box `P` lies. -/
theorem Binary32.zero_axes_contain_finite (cosf sinf : F32 → F32) :
    (∀ (x0 y0 x1 y1 : ℚ) (P : Point2D F32),
        (Binary32.Rectangle.from_corners ⟨F32.fin x0, F32.fin y0⟩
          ⟨F32.fin x1, F32.fin y1⟩).axis_major = Binary32.Vector2D.ofXY (F32.fin 0) (F32.fin 0)
        ∧ (Binary32.Rectangle.from_corners ⟨F32.fin x0, F32.fin y0⟩
          ⟨F32.fin x1, F32.fin y1⟩).axis_minor = Binary32.Vector2D.ofXY (F32.fin 0) (F32.fin 0)
        ∧ (F32.isFinite (Binary32.Math.get_vector_from_A_to_B
              (Binary32.Rectangle.from_corners ⟨F32.fin x0, F32.fin y0⟩
                ⟨F32.fin x1, F32.fin y1⟩).center P).x = true →
            F32.isFinite (Binary32.Math.get_vector_from_A_to_B
              (Binary32.Rectangle.from_corners ⟨F32.fin x0, F32.fin y0⟩
                ⟨F32.fin x1, F32.fin y1⟩).center P).y = true →
            Binary32.Rectangle.contains_point
              (Binary32.Rectangle.from_corners ⟨F32.fin x0, F32.fin y0⟩
                ⟨F32.fin x1, F32.fin y1⟩) P = true))
    ∧ (∀ (r : Rectangle F32) (P : Point2D F32), Binary32.Reachable cosf sinf r →
        (Binary32.Rectangle.copy r).axis_major = Binary32.Vector2D.ofXY (F32.fin 0) (F32.fin 0)
        ∧ (Binary32.Rectangle.copy r).axis_minor
            = Binary32.Vector2D.ofXY (F32.fin 0) (F32.fin 0)
        ∧ (F32.isFinite (Binary32.Math.get_vector_from_A_to_B
              (Binary32.Rectangle.copy r).center P).x = true →
            F32.isFinite (Binary32.Math.get_vector_from_A_to_B
              (Binary32.Rectangle.copy r).center P).y = true →
            Binary32.Rectangle.contains_point (Binary32.Rectangle.copy r) P = true)) := by
  constructor
  · intro x0 y0 x1 y1 P
    refine ⟨rfl, rfl, fun hx hy => ?_⟩
    obtain ⟨hM, hm⟩ := Binary32.magnitudes_of_zero_axes _ P rfl rfl hx hy
    obtain ⟨h1, h2⟩ := Binary32.Reachable.extents_nonneg
      (Binary32.Reachable.corners x0 y0 x1 y1 : Binary32.Reachable cosf sinf _)
    exact Binary32.contains_of_zero_magnitudes _ P hM hm h1 h2
  · intro r P hr
    refine ⟨rfl, rfl, fun hx hy => ?_⟩
    obtain ⟨hM, hm⟩ := Binary32.magnitudes_of_zero_axes _ P rfl rfl hx hy
    obtain ⟨h1, h2⟩ := Binary32.Reachable.extents_nonneg (Binary32.Reachable.copy hr)
    exact Binary32.contains_of_zero_magnitudes _ P hM hm h1 h2

/-- C17, amended for binary32: every rectangle built from finite arguments
(by any constructor, copy or assignment) whose stored center is finite
contains its own center, provided the library's `cos` and `sin` return
finite values at finite arguments.  The stored center is infinite only when
the two-corner constructor overflows. -/
theorem Binary32.contains_finite_center (cosf sinf : F32 → F32)
    (hlib : ∀ q : ℚ, F32.isFinite (cosf (F32.fin q)) = true
      ∧ F32.isFinite (sinf (F32.fin q)) = true)
    (r : Rectangle F32) (hr : Binary32.Reachable cosf sinf r)
    (hcx : F32.isFinite r.center.x = true) (hcy : F32.isFinite r.center.y = true) :
    Binary32.Rectangle.contains_point r r.center = true := by
  obtain ⟨a, b, c, d, hM, hm⟩ := Binary32.Reachable.axes_finite hlib hr
  obtain ⟨h1, h2⟩ := Binary32.Reachable.extents_nonneg hr
  obtain ⟨cx, hcx⟩ := (F32.isFinite_iff _).mp hcx
  obtain ⟨cy, hcy⟩ := (F32.isFinite_iff _).mp hcy
  apply Binary32.contains_of_zero_magnitudes _ _ _ _ h1 h2
  · simp only [Binary32.Rectangle.magnitude_major, Binary32.Math.get_vector_from_A_to_B,
      Binary32.Vector2D.ofPoint, Binary32.Point2D.sub, Binary32.Vector2D.dot_product,
      Binary32.Vector2D.ofXY, hM, hcx, hcy, F32.sub_self_fin, F32.zero_mul_fin,
      F32.zero_add_zero, F32.abs_fin, abs_zero]
  · simp only [Binary32.Rectangle.magnitude_minor, Binary32.Math.get_vector_from_A_to_B,
      Binary32.Vector2D.ofPoint, Binary32.Point2D.sub, Binary32.Vector2D.dot_product,
      Binary32.Vector2D.ofXY, hm, hcx, hcy, F32.sub_self_fin, F32.zero_mul_fin,
      F32.zero_add_zero, F32.abs_fin, abs_zero]

/-- Witness for C16 (amended): the copy of a rectangle built by the rotation
constructor from negative extents has a finite displacement to the far point
`(1000, 1000)` and contains it.  The library values are those at the
quarter turn. -/
theorem Binary32.zero_axes_contain_finite_witness :
    Binary32.Reachable (fun _ => F32.fin (-12303662 / 2 ^ 48)) (fun _ => F32.fin 1)
        (Binary32.Rectangle.from_rotation (fun _ => F32.fin (-12303662 / 2 ^ 48))
          (fun _ => F32.fin 1) ⟨F32.fin 3, F32.fin 4⟩ (F32.fin (-2)) (F32.fin (-1)) (F32.fin 90))
    ∧ Binary32.Rectangle.contains_point
        (Binary32.Rectangle.copy
          (Binary32.Rectangle.from_rotation (fun _ => F32.fin (-12303662 / 2 ^ 48))
            (fun _ => F32.fin 1) ⟨F32.fin 3, F32.fin 4⟩ (F32.fin (-2)) (F32.fin (-1))
            (F32.fin 90)))
        ⟨F32.fin 1000, F32.fin 1000⟩ = true :=
  have hx : F32.sub (F32.fin 1000) (F32.fin 3) = F32.fin 997 := by
    rw [F32.sub_fin]
    have := F32.round_int 997 (by norm_num)
    norm_num at this ⊢
    exact this
  have hy : F32.sub (F32.fin 1000) (F32.fin 4) = F32.fin 996 := by
    rw [F32.sub_fin]
    have := F32.round_int 996 (by norm_num)
    norm_num at this ⊢
    exact this
  ⟨Binary32.Reachable.rotation 3 4 (-2) (-1) 90,
    ((Binary32.zero_axes_contain_finite (fun _ => F32.fin (-12303662 / 2 ^ 48))
        (fun _ => F32.fin 1)).2 _ ⟨F32.fin 1000, F32.fin 1000⟩
      (Binary32.Reachable.rotation 3 4 (-2) (-1) 90)).2.2
      (by
        show F32.isFinite (F32.sub (F32.fin 1000) (F32.fin 3)) = true
        rw [hx]
        rfl)
      (by
        show F32.isFinite (F32.sub (F32.fin 1000) (F32.fin 4)) = true
        rw [hy]
        rfl)⟩

/-- Witness for C17 (amended): the zero-area rectangle
`Rectangle(Point2D(3,4), 0, 0)` assigned to a rotated rectangle has the
finite center `(3,4)` and contains it. -/
theorem Binary32.contains_finite_center_witness :
    Binary32.Reachable (fun _ => F32.fin (-12303662 / 2 ^ 48)) (fun _ => F32.fin 1)
        (Binary32.Rectangle.assign
          (Binary32.Rectangle.from_rotation (fun _ => F32.fin (-12303662 / 2 ^ 48))
            (fun _ => F32.fin 1) ⟨F32.fin 6, F32.fin 5⟩ (F32.fin (-2)) (F32.fin 1) (F32.fin 90))
          (Binary32.Rectangle.from_center ⟨F32.fin 3, F32.fin 4⟩ (F32.fin 0) (F32.fin 0)))
    ∧ Binary32.Rectangle.contains_point
        (Binary32.Rectangle.assign
          (Binary32.Rectangle.from_rotation (fun _ => F32.fin (-12303662 / 2 ^ 48))
            (fun _ => F32.fin 1) ⟨F32.fin 6, F32.fin 5⟩ (F32.fin (-2)) (F32.fin 1) (F32.fin 90))
          (Binary32.Rectangle.from_center ⟨F32.fin 3, F32.fin 4⟩ (F32.fin 0) (F32.fin 0)))
        ⟨F32.fin 3, F32.fin 4⟩ = true :=
  ⟨Binary32.Reachable.assign (Binary32.Reachable.rotation 6 5 (-2) 1 90)
      (Binary32.Reachable.center 3 4 0 0),
    Binary32.contains_finite_center (fun _ => F32.fin (-12303662 / 2 ^ 48)) (fun _ => F32.fin 1)
      (fun _ => ⟨rfl, rfl⟩) _
      (Binary32.Reachable.assign (Binary32.Reachable.rotation 6 5 (-2) 1 90)
        (Binary32.Reachable.center 3 4 0 0)) rfl rfl⟩

/-! ## The quarter turn in binary32 -/

/-- Rounding error below a power of two. -/
theorem F32.abs_rnd_sub_le_of_lt {q : ℚ} (e : ℤ) (h : |q| < 2 ^ (e + 1)) (he : -126 ≤ e) :
    |F32.rnd q - q| ≤ 2 ^ (e - 24) := by
  rcases eq_or_ne q 0 with h0 | h0
  · subst h0
    rw [F32.rnd_zero, sub_zero, abs_zero]
    positivity
  · have h1 := F32.abs_rnd_sub_le q
    have h2 := F32.expo_le_of_lt h0 h he
    have h3 : F32.ulp q ≤ 2 ^ (e - 23) := by
      unfold F32.ulp
      exact zpow_le_zpow_right₀ (by norm_num) h2
    have h4 : (2 : ℚ) ^ (e - 23) = 2 * 2 ^ (e - 24) := by
      rw [show e - 23 = 1 + (e - 24) by ring, zpow_add₀ (by norm_num : (2 : ℚ) ≠ 0)]
      norm_num
    linarith

theorem F32.rnd_abs_of_round {a : ℚ} (h : F32.round a = F32.fin a) : F32.rnd |a| = |a| := by
  have : F32.rnd a = a := by
    unfold F32.round at h
    split_ifs at h
    injection h
  rw [← F32.abs_rnd, this]

theorem F32.rnd_two_pow_neg (k : ℕ) (hk : k ≤ 149) :
    F32.rnd (1 / 2 ^ k) = 1 / 2 ^ k := by
  have e : (1 / 2 ^ k : ℚ) = ((1 : ℤ) : ℚ) * 2 ^ (-(k : ℤ)) := by
    rw [zpow_neg, zpow_natCast]
    simp
  rw [e]
  exact F32.rnd_dyadic 1 _ (by norm_num) (by omega)

theorem F32.max_ge_128 : (128 : ℚ) ≤ F32.maxFinite := by
  unfold F32.maxFinite
  norm_num

namespace Binary32

/-- The angle the rotation constructor computes for 90 degrees:
`0.5f * PI`, which is `13176795 / 2^23`. -/
theorem deg_to_radians_90 :
    Math.deg_to_radians (F32.fin 90) = F32.fin (13176795 / 2 ^ 23) := by
  unfold Math.deg_to_radians
  have hfm : Math.fmod (F32.fin 90) (F32.fin 360) = F32.fin 90 := by
    have : Koolhaus.Math.fmod (90 : ℚ) 360 = 90 :=
      Koolhaus.Math.fmod_of_nonneg_of_lt (by norm_num) (by norm_num)
    simp [Math.fmod, this]
  have hhalf : F32.round (90 / 180) = F32.fin (1 / 2) := by
    have : F32.round (1 / 2 : ℚ) = F32.fin (1 / 2) :=
      F32.round_dyadic 1 (-1) (by norm_num) (by norm_num) (by norm_num) (by norm_num)
    norm_num at this ⊢
    exact this
  have hprod : F32.round (1 / 2 * (13176795 / 2 ^ 22)) = F32.fin (13176795 / 2 ^ 23) := by
    have : F32.round (13176795 / 2 ^ 23 : ℚ) = F32.fin (13176795 / 2 ^ 23) :=
      F32.round_dyadic 13176795 (-23) (by norm_num) (by norm_num) (by norm_num) (by norm_num)
    norm_num at this ⊢
    exact this
  rw [hfm, F32.div_const_fin, hhalf, PI_eq, F32.mul_fin, hprod]

/-- A computed difference keeps a representable bound of the exact one. -/
theorem sub_bounded (p c : ℚ) {B : ℚ} (hB : F32.rnd B = B) (hB' : B ≤ 64) (h : |p - c| ≤ B) :
    ∃ d, F32.sub (F32.fin p) (F32.fin c) = F32.fin d ∧ |d| ≤ B := by
  rw [F32.sub_fin]
  exact F32.round_fin_of_abs_le _ hB (le_trans hB' (le_trans (by norm_num) F32.max_ge_128)) h

/-- A product with a factor of magnitude at most one keeps a representable
bound of the other factor. -/
theorem mul_unit_bounded (d s : ℚ) {B : ℚ} (hB : F32.rnd B = B) (hB' : B ≤ 64)
    (hd : |d| ≤ B) (hs : |s| ≤ 1) :
    ∃ v, F32.mul (F32.fin d) (F32.fin s) = F32.fin v ∧ |v| ≤ B := by
  rw [F32.mul_fin]
  apply F32.round_fin_of_abs_le _ hB (le_trans hB' (le_trans (by norm_num) F32.max_ge_128))
  rw [abs_mul]
  calc |d| * |s| ≤ |d| * 1 := mul_le_mul_of_nonneg_left hs (abs_nonneg d)
    _ = |d| := mul_one _
    _ ≤ B := hd

/-- A product of a factor of magnitude at most `64` with one of magnitude at
most `2^-24` has magnitude at most `2^-18`. -/
theorem mul_small_bounded (d c : ℚ) (hd : |d| ≤ 64) (hc : |c| ≤ 1 / 2 ^ 24) :
    ∃ u, F32.mul (F32.fin d) (F32.fin c) = F32.fin u ∧ |u| ≤ 1 / 2 ^ 18 := by
  rw [F32.mul_fin]
  apply F32.round_fin_of_abs_le _ (F32.rnd_two_pow_neg 18 (by norm_num))
    (le_trans (by norm_num) F32.max_ge_128)
  rw [abs_mul]
  calc |d| * |c| ≤ 64 * (1 / 2 ^ 24) := mul_le_mul hd hc (abs_nonneg c) (by norm_num)
    _ = 1 / 2 ^ 18 := by norm_num

/-- One axis of the test passes when the exact sum of the two rounded
products is within `2^-18` of the half-extent, for half-extents up to `64`:
the rounded sum exceeds the half-extent by at most `2^-17`, which is below
the tolerance. -/
theorem axis_passes (x y h : ℚ) (hh : h ≤ 64) (hsum : |x + y| ≤ h + 1 / 2 ^ 18) :
    F32.le (F32.abs (F32.add (F32.fin x) (F32.fin y))) (F32.fin h) = true
      ∨ Math.nearly_equal (F32.abs (F32.add (F32.fin x) (F32.fin y))) (F32.fin h) = true := by
  have hlt : |x + y| < 2 ^ ((6 : ℤ) + 1) := by
    have : (2 : ℚ) ^ ((6 : ℤ) + 1) = 128 := by norm_num
    rw [this]
    have : (1 / 2 ^ 18 : ℚ) < 1 := by norm_num
    linarith
  have herr := F32.abs_rnd_sub_le_of_lt 6 hlt (by norm_num)
  have herr' : |F32.rnd (x + y) - (x + y)| ≤ 1 / 2 ^ 18 := by
    have : (2 : ℚ) ^ ((6 : ℤ) - 24) = 1 / 2 ^ 18 := by norm_num
    rwa [this] at herr
  have hs : |F32.rnd (x + y)| ≤ h + 1 / 2 ^ 17 := by
    have := abs_sub_abs_le_abs_sub (F32.rnd (x + y)) (x + y)
    have e : (1 / 2 ^ 17 : ℚ) = 1 / 2 ^ 18 + 1 / 2 ^ 18 := by norm_num
    linarith
  have hfin : F32.round (x + y) = F32.fin (F32.rnd (x + y)) := by
    apply F32.round_of_rnd rfl
    have : (1 / 2 ^ 17 : ℚ) < 1 := by norm_num
    have := F32.max_ge_128
    linarith
  rw [F32.add_fin, hfin, F32.abs_fin]
  rcases le_or_lt |F32.rnd (x + y)| h with hle | hgt
  · left
    rw [F32.le_fin, decide_eq_true_eq]
    exact hle
  · right
    unfold Math.nearly_equal
    rw [F32.sub_fin]
    have hd : |(|F32.rnd (x + y)| - h)| ≤ 1 / 2 ^ 17 := by
      rw [abs_of_pos (by linarith)]
      linarith
    obtain ⟨z, hz, hzb⟩ := F32.round_fin_of_abs_le (|F32.rnd (x + y)| - h)
      (F32.rnd_two_pow_neg 17 (by norm_num)) (le_trans (by norm_num) F32.max_ge_128) hd
    rw [hz, F32.abs_fin, F32.lt_double_fin, decide_eq_true_eq]
    unfold Math.tolerance
    refine lt_of_le_of_lt hzb ?_
    norm_num

end Binary32

/-- C14, amended for binary32: a rectangle rotated by 90 degrees swaps the
roles of the world axes up to the tolerance, for half-extents of at most 64.
For every finite center `c`, binary32 half-extents `a`, `b` with `|a| ≤ 64`
and `|b| ≤ 64`, and finite point `p` with `|p.y - c.y| ≤ |a|` and
`|p.x - c.x| ≤ |b|`, `Rectangle(c, a, b, 90).contains_point(p)` is true,
provided the library returns at the angle `deg_to_radians(90)` a cosine of
magnitude at most `2^-24` and a sine of magnitude at most `1` (the exact
values there are about `-4.37e-8` and `1 - 1e-15`). -/
theorem Binary32.rotated_90_contains (cosf sinf : F32 → F32) (C S : ℚ)
    (hC : cosf (Binary32.Math.deg_to_radians (F32.fin 90)) = F32.fin C)
    (hS : sinf (Binary32.Math.deg_to_radians (F32.fin 90)) = F32.fin S)
    (hCb : |C| ≤ 1 / 2 ^ 24) (hSb : |S| ≤ 1)
    (cx cy px py a b : ℚ)
    (hra : F32.round a = F32.fin a) (hrb : F32.round b = F32.fin b)
    (ha : |a| ≤ 64) (hb : |b| ≤ 64)
    (hy : |py - cy| ≤ |a|) (hx : |px - cx| ≤ |b|) :
    Binary32.Rectangle.contains_point
      (Binary32.Rectangle.from_rotation cosf sinf ⟨F32.fin cx, F32.fin cy⟩
        (F32.fin a) (F32.fin b) (F32.fin 90))
      ⟨F32.fin px, F32.fin py⟩ = true := by
  have hA := F32.rnd_abs_of_round hra
  have hB := F32.rnd_abs_of_round hrb
  obtain ⟨dx, hdx, hdxb⟩ := Binary32.sub_bounded px cx hB hb hx
  obtain ⟨dy, hdy, hdyb⟩ := Binary32.sub_bounded py cy hA ha hy
  have hnS : |(-S)| ≤ 1 := by rwa [abs_neg]
  obtain ⟨u1, hu1, hu1b⟩ := Binary32.mul_small_bounded dx C (le_trans hdxb hb) hCb
  obtain ⟨v1, hv1, hv1b⟩ := Binary32.mul_unit_bounded dy S hA ha hdyb hSb
  obtain ⟨u2, hu2, hu2b⟩ := Binary32.mul_unit_bounded dx (-S) hB hb hdxb hnS
  obtain ⟨v2, hv2, hv2b⟩ := Binary32.mul_small_bounded dy C (le_trans hdyb ha) hCb
  rw [Binary32.contains_point_iff_axes]
  constructor
  · simp only [Binary32.Rectangle.magnitude_major, Binary32.Rectangle.from_rotation,
      Binary32.Rectangle.from_center, Binary32.Math.get_vector_from_A_to_B,
      Binary32.Vector2D.ofPoint, Binary32.Point2D.sub, Binary32.Vector2D.dot_product,
      Binary32.Vector2D.ofXY, hC, hS, hdx, hdy, hu1, hv1, F32.abs_fin]
    apply Binary32.axis_passes u1 v1 |a| ha
    have := abs_add u1 v1
    linarith
  · simp only [Binary32.Rectangle.magnitude_minor, Binary32.Rectangle.from_rotation,
      Binary32.Rectangle.from_center, Binary32.Math.get_vector_from_A_to_B,
      Binary32.Vector2D.ofPoint, Binary32.Point2D.sub, Binary32.Vector2D.dot_product,
      Binary32.Vector2D.ofXY, hC, hS, hdx, hdy, F32.neg_fin, hu2, hv2, F32.abs_fin]
    apply Binary32.axis_passes u2 v2 |b| hb
    have := abs_add u2 v2
    linarith

/-- The exact cosine and sine at the program's quarter turn
`13176795 / 2^23`: the angle exceeds `π / 2` by about `4.37e-8`, so the
cosine is about `-4.37e-8` and the sine is just below `1`.  A library that
rounds these values correctly returns a cosine and a sine inside the ranges
used below. -/
theorem real_cos_sin_quarter_turn :
    -(44 / 10 ^ 9) < Real.cos (13176795 / 2 ^ 23)
    ∧ Real.cos (13176795 / 2 ^ 23) < -(43 / 10 ^ 9)
    ∧ 1 - 1 / 2 ^ 23 < Real.sin (13176795 / 2 ^ 23)
    ∧ Real.sin (13176795 / 2 ^ 23) ≤ 1 := by
  have hlo := Real.pi_gt_d20
  have hhi := Real.pi_lt_d20
  have ht : (13176795 / 2 ^ 23 : ℝ) = (13176795 / 2 ^ 23 - Real.pi / 2) + Real.pi / 2 := by ring
  have e_lo : (437 / 10 ^ 10 : ℝ) < 13176795 / 2 ^ 23 - Real.pi / 2 := by
    norm_num at hhi ⊢
    linarith
  have e_hi : (13176795 / 2 ^ 23 - Real.pi / 2 : ℝ) < 438 / 10 ^ 10 := by
    norm_num at hlo ⊢
    linarith
  rw [ht, Real.cos_add_pi_div_two, Real.sin_add_pi_div_two]
  generalize (13176795 / 2 ^ 23 - Real.pi / 2 : ℝ) = e at e_lo e_hi
  have e_pos : 0 < e := lt_trans (by norm_num) e_lo
  have s_hi : Real.sin e < e := Real.sin_lt e_pos
  have s_lo : e - e ^ 3 / 4 < Real.sin e :=
    Real.sin_gt_sub_cube e_pos (le_trans e_hi.le (by norm_num))
  have c_lo : 1 - e ^ 2 / 2 ≤ Real.cos e := Real.one_sub_sq_div_two_le_cos
  have c_hi : Real.cos e ≤ 1 := Real.cos_le_one e
  have e2 : e ^ 2 < 1 / 10 ^ 14 := by
    have : e ^ 2 < (438 / 10 ^ 10) ^ 2 := pow_lt_pow_left₀ e_hi e_pos.le (by norm_num)
    refine lt_trans this ?_
    norm_num
  have e3 : e ^ 3 < 1 / 10 ^ 14 := by
    have : e ^ 3 = e * e ^ 2 := by ring
    rw [this]
    nlinarith
  refine ⟨?_, ?_, ?_, c_hi⟩
  · linarith
  · linarith
  · have : (1 / 2 ^ 23 : ℝ) > 1 / 10 ^ 7 := by norm_num
    linarith

/-- C14, as stated, fails in binary32: with center `(0,0)`, half-extents
`(1, 256)` and rotation `90`, the corner `(-256, 1)` satisfies
`|p.y - c.y| ≤ |a|` and `|p.x - c.x| ≤ |b|`, yet it is rejected for every
library whose cosine at `deg_to_radians(90)` lies in `[-4.4e-8, -4.3e-8]`
and whose sine lies in `[1 - 2^-23, 1]` (the exact values are about
`-4.3711e-8` and `1 - 1e-15`): the constant `3.14159265359f` is
`13176795 / 2^22`, the angle exceeds `π / 2`, and the major projection is
at least `1 + 91 * 2^-23`, more than `1e-5` above the half-extent `1`. -/
theorem Binary32.rotated_90_rejects_corner :
    F32.round 1 = F32.fin 1
    ∧ F32.round 256 = F32.fin 256
    ∧ F32.round (-256) = F32.fin (-256)
    ∧ |(1 : ℚ) - 0| ≤ |1|
    ∧ |(-256 : ℚ) - 0| ≤ |256|
    ∧ Binary32.Math.deg_to_radians (F32.fin 90) = F32.fin (13176795 / 2 ^ 23)
    ∧ ∀ (cosf sinf : F32 → F32) (C S : ℚ),
        cosf (Binary32.Math.deg_to_radians (F32.fin 90)) = F32.fin C →
        sinf (Binary32.Math.deg_to_radians (F32.fin 90)) = F32.fin S →
        -(44 / 10 ^ 9) ≤ C → C ≤ -(43 / 10 ^ 9) → 1 - 1 / 2 ^ 23 ≤ S → S ≤ 1 →
        Binary32.Rectangle.contains_point
          (Binary32.Rectangle.from_rotation cosf sinf ⟨F32.fin 0, F32.fin 0⟩
            (F32.fin 1) (F32.fin 256) (F32.fin 90))
          ⟨F32.fin (-256), F32.fin 1⟩ = false := by
  have r1 : F32.round 1 = F32.fin 1 := by
    have := F32.round_int 1 (by norm_num)
    simpa using this
  have r256 : F32.round 256 = F32.fin 256 := by
    have := F32.round_int 256 (by norm_num)
    simpa using this
  have rn256 : F32.round (-256) = F32.fin (-256) := by
    have := F32.round_int (-256) (by norm_num)
    simpa using this
  refine ⟨r1, r256, rn256, by norm_num, by norm_num, Binary32.deg_to_radians_90, ?_⟩
  intro cosf sinf C S hC hS hC1 hC2 hS1 hS2
  have h2 : F32.rnd 2 = 2 := by
    have := F32.rnd_int 2 (by norm_num)
    simpa using this
  have hmax2 : (2 : ℚ) ≤ F32.maxFinite := le_trans (by norm_num) F32.max_ge_128
  -- the two rounded products
  obtain ⟨hu, hub⟩ := F32.round_eq_of_abs_le (-256 * C) h2 hmax2
    (by rw [abs_le]; constructor <;> linarith)
  obtain ⟨hv, hvb⟩ := F32.round_eq_of_abs_le (1 * S) h2 hmax2
    (by rw [abs_le]; constructor <;> linarith)
  have hL1 : F32.rnd (92 / 2 ^ 23) = 92 / 2 ^ 23 := by
    have e : (92 / 2 ^ 23 : ℚ) = ((92 : ℤ) : ℚ) * 2 ^ (-23 : ℤ) := by norm_num
    rw [e]
    exact F32.rnd_dyadic 92 (-23) (by norm_num) (by norm_num)
  have hL2 : F32.rnd (1 - 1 / 2 ^ 23) = 1 - 1 / 2 ^ 23 := by
    have e : (1 - 1 / 2 ^ 23 : ℚ) = ((8388607 : ℤ) : ℚ) * 2 ^ (-23 : ℤ) := by norm_num
    rw [e]
    exact F32.rnd_dyadic 8388607 (-23) (by norm_num) (by norm_num)
  have hL3 : F32.rnd (1 + 91 / 2 ^ 23) = 1 + 91 / 2 ^ 23 := by
    have e : (1 + 91 / 2 ^ 23 : ℚ) = ((8388699 : ℤ) : ℚ) * 2 ^ (-23 : ℤ) := by norm_num
    rw [e]
    exact F32.rnd_dyadic 8388699 (-23) (by norm_num) (by norm_num)
  have hu_lo : (92 / 2 ^ 23 : ℚ) ≤ F32.rnd (-256 * C) :=
    F32.le_rnd_of_le hL1 (by norm_num) (by norm_num; linarith)
  have hv_lo : (1 - 1 / 2 ^ 23 : ℚ) ≤ F32.rnd (1 * S) :=
    F32.le_rnd_of_le hL2 (by norm_num) (by linarith)
  have h4 : F32.rnd 4 = 4 := by
    have := F32.rnd_int 4 (by norm_num)
    simpa using this
  have hmax4 : (4 : ℚ) ≤ F32.maxFinite := le_trans (by norm_num) F32.max_ge_128
  obtain ⟨hs, hsb⟩ := F32.round_eq_of_abs_le (F32.rnd (-256 * C) + F32.rnd (1 * S)) h4 hmax4
    (by
      have := abs_add (F32.rnd (-256 * C)) (F32.rnd (1 * S))
      linarith)
  have hs_lo : (1 + 91 / 2 ^ 23 : ℚ) ≤ F32.rnd (F32.rnd (-256 * C) + F32.rnd (1 * S)) :=
    F32.le_rnd_of_le hL3 (by norm_num) (by norm_num at hu_lo hv_lo ⊢; linarith)
  have hM : Binary32.Rectangle.magnitude_major
      (Binary32.Rectangle.from_rotation cosf sinf ⟨F32.fin 0, F32.fin 0⟩
        (F32.fin 1) (F32.fin 256) (F32.fin 90))
      ⟨F32.fin (-256), F32.fin 1⟩
      = F32.fin |F32.rnd (F32.rnd (-256 * C) + F32.rnd (1 * S))| := by
    simp only [Binary32.Rectangle.magnitude_major, Binary32.Rectangle.from_rotation,
      Binary32.Rectangle.from_center, Binary32.Math.get_vector_from_A_to_B,
      Binary32.Vector2D.ofPoint, Binary32.Point2D.sub, Binary32.Vector2D.dot_product,
      Binary32.Vector2D.ofXY, hC, hS, F32.sub_fin, sub_zero, rn256, r1, F32.mul_fin, hu, hv,
      F32.add_fin, hs, F32.abs_fin]
  obtain ⟨f1, f2⟩ := Binary32.axis_fails |F32.rnd (F32.rnd (-256 * C) + F32.rnd (1 * S))| 1
    (by
      rw [abs_of_nonneg (le_trans (by norm_num) hs_lo)]
      refine le_trans ?_ hs_lo
      norm_num)
  apply Binary32.rejects_of_axis_fails_major
  · rw [hM]
    exact f1
  · rw [hM]
    exact f2

/-- Witness for C14 (amended): center `(3,4)`, half-extents `(2,1)`,
rotation `90`, point `(4,6)`, with the library values `-12303662 * 2^-48`
(cosine) and `1` (sine). -/
theorem Binary32.rotated_90_contains_witness :
    |(-12303662 / 2 ^ 48 : ℚ)| ≤ 1 / 2 ^ 24
    ∧ |(1 : ℚ)| ≤ 1
    ∧ F32.round 2 = F32.fin 2
    ∧ F32.round 1 = F32.fin 1
    ∧ |(2 : ℚ)| ≤ 64 ∧ |(1 : ℚ)| ≤ 64
    ∧ |(6 : ℚ) - 4| ≤ |2| ∧ |(4 : ℚ) - 3| ≤ |1|
    ∧ Binary32.Rectangle.contains_point
        (Binary32.Rectangle.from_rotation (fun _ => F32.fin (-12303662 / 2 ^ 48))
          (fun _ => F32.fin 1) ⟨F32.fin 3, F32.fin 4⟩ (F32.fin 2) (F32.fin 1) (F32.fin 90))
        ⟨F32.fin 4, F32.fin 6⟩ = true :=
  have r1 : F32.round 1 = F32.fin 1 := by
    have := F32.round_int 1 (by norm_num)
    simpa using this
  have r2 : F32.round 2 = F32.fin 2 := by
    have := F32.round_int 2 (by norm_num)
    simpa using this
  ⟨by norm_num [abs_le], by norm_num, r2, r1, by norm_num, by norm_num, by norm_num,
    by norm_num,
    Binary32.rotated_90_contains (fun _ => F32.fin (-12303662 / 2 ^ 48)) (fun _ => F32.fin 1)
      (-12303662 / 2 ^ 48) 1 rfl rfl (by norm_num [abs_le]) (by norm_num) 3 4 4 6 2 1 r2 r1
      (by norm_num) (by norm_num) (by norm_num) (by norm_num)⟩

end Koolhaus
